import Mathlib

/-!
# Persona contract (`persona.hpp`, `persona.cpp`)

A shallow embedding of the three actions of the persona contract
(`initpersona`, `submitmsg`, `finalizemsg`) over an explicit model of the
chain database, followed by theorems about them.

* Rows of a table are kept in a list ordered by primary key, the order in
  which a `multi_index` iterates them.  The table functions neither assume nor
  need that the list is ordered or free of duplicate keys: `emplace` refuses a
  key that is already present, as the chain database does.
* `uint64_t` values are natural numbers; the only arithmetic on them is the
  key allocation of `available_primary_key`, where the bound `2^64 - 2` is
  explicit.
* An action body is a function from the database to an `Outcome`: the result
  (`ok` or the failure that aborted it) and the working database at that
  point.  `push_action` is the transaction around the body: it keeps the
  working database when the body returned and restores the database from
  before the call when the body aborted.
-/

namespace Mutagent

namespace sysio

/-- An account name: `sysio::name`, a wrapper around one `uint64_t`. -/
structure name where
  value : Nat
deriving DecidableEq, Repr

/-- The ways an action aborts. `missing_auth` is raised by `require_auth`,
`check_failure` by `check(false, msg)` (it carries the message), and
`uniqueness_violation` by the chain database when a row is stored under a
primary key that the table already holds. -/
inductive Failure where
  | missing_auth (account : name)
  | check_failure (msg : String)
  | uniqueness_violation
deriving DecidableEq, Repr

/-- Modelled from the spec: `sysio::require_auth` (platform library, not in the
repository). "Caller must be the system's own administrative principal" /
"caller is authenticated as `accountId` itself": the call passes when the
account is among the actors that authorised the action, and aborts the action
otherwise. -/
def require_auth (auth : List name) (account : name) : Except Failure Unit :=
  if account ∈ auth then .ok () else .error (.missing_auth account)

/-- Modelled from the spec: `sysio::check` (platform library, not in the
repository). "Every precondition violation aborts the entire operation": a
false condition aborts the action with the given message. -/
def check (pred : Bool) (msg : String) : Except Failure Unit :=
  if pred then .ok () else .error (.check_failure msg)

/-- The reserved top of the key space: `available_primary_key` never hands out
`2^64 - 2` or `2^64 - 1`. -/
def no_available_primary_key : Nat := 2 ^ 64 - 2

/-- Modelled from the spec: `multi_index::find` (platform library, not in the
repository), the "find" of the Entity Store: the row stored under primary key
`k`, if there is one (`none` stands for `end()`). -/
def find {α : Type} (pk : α → Nat) (k : Nat) (rows : List α) : Option α :=
  rows.find? (fun r => decide (pk r = k))

/-- Place a row in a table, in front of the first row with a larger key. -/
def store {α : Type} (pk : α → Nat) (row : α) : List α → List α
  | [] => [row]
  | r :: rows => if pk row < pk r then row :: r :: rows else r :: store pk row rows

/-- Modelled from the spec: `multi_index::emplace` (platform library, not in
the repository), the "create" of the Entity Store: stores a new row under its
primary key; the chain database refuses a key that is already in the table. -/
def emplace {α : Type} (pk : α → Nat) (row : α) (rows : List α) : Except Failure (List α) :=
  match find pk (pk row) rows with
  | some _ => .error .uniqueness_violation
  | none => .ok (store pk row rows)

/-- Put `row` in the place of the first row stored under key `k`. -/
def replace {α : Type} (pk : α → Nat) (k : Nat) (row : α) : List α → List α
  | [] => []
  | r :: rows => if pk r = k then row :: rows else r :: replace pk k row rows

/-- Modelled from the spec: `multi_index::modify` (platform library, not in the
repository), the "update" of the Entity Store: applies `updater` to the row
`obj` the iterator points at and writes it back; the library aborts when the
updater changed the primary key. -/
def modify {α : Type} (pk : α → Nat) (obj : α) (updater : α → α) (rows : List α) :
    Except Failure (List α) :=
  match check (decide (pk (updater obj) = pk obj))
      "updater cannot change primary key when modifying an object" with
  | .error e => .error e
  | .ok _ => .ok (replace pk (pk obj) (updater obj) rows)

/-- Modelled from the spec: `multi_index::available_primary_key` (platform
library, not in the repository). "Key allocation reads the current maximum
before writing", "starts at 0": `0` for an empty table, otherwise one more than
the key of the last row, and an abort once that reaches the auto-increment
limit `2^64 - 2`. -/
def available_primary_key {α : Type} (pk : α → Nat) (rows : List α) : Except Failure Nat :=
  let next :=
    match rows.getLast? with
    | none => 0
    | some r => if pk r ≥ no_available_primary_key then no_available_primary_key else pk r + 1
  match check (decide (next < no_available_primary_key))
      "next primary key in table is at autoincrement limit" with
  | .error e => .error e
  | .ok _ => .ok next

end sysio

open sysio

/-- Row of the `convos` table. -/
structure convo_info where
  account_name : name
  full_convo_history_cid : String
deriving DecidableEq, Repr

/-- Row of the `messages` table. -/
structure message_info where
  key : Nat
  pre_state_cid : String
  msg_cid : String
  post_state_cid : String
  response : String
deriving DecidableEq, Repr

/-- Row of the `personainfo` table. -/
structure persona_info where
  id : Nat
  initial_state_cid : String
deriving DecidableEq, Repr

def convo_info.primary_key (row : convo_info) : Nat := row.account_name.value

def message_info.primary_key (row : message_info) : Nat := row.key

def persona_info.primary_key (row : persona_info) : Nat := row.id

/-- The tables of the contract, each indexed by scope:
`multi_index<"convos"_n, convo_info>`, `multi_index<"messages"_n, message_info>`
and `multi_index<"personainfo"_n, persona_info>`. -/
structure Database where
  convos : Nat → List convo_info
  messages : Nat → List message_info
  personainfo : Nat → List persona_info

/-- The database of a freshly deployed contract: every table is empty. -/
def Database.empty : Database := ⟨fun _ => [], fun _ => [], fun _ => []⟩

/-- Write back the rows of one scope of a table. -/
def set_scope {α : Type} (table : Nat → List α) (scope : Nat) (rows : List α) : Nat → List α :=
  fun s => if s = scope then rows else table s

/-- What running an action body gives: its result and the working database at
the point where it returned or aborted. -/
structure Outcome where
  result : Except Failure Unit
  db : Database

/-- The body returned without aborting. -/
def Outcome.succeeded (o : Outcome) : Bool :=
  match o.result with
  | .ok _ => true
  | .error _ => false

namespace persona

/-- The action `persona::initpersona` (persona.cpp, lines 3-16). `self` is
`get_self()`, `auth` the actors that authorised the action. -/
def initpersona (self : name) (auth : List name) (initial_state_cid : String)
    (db : Database) : Outcome :=
  match require_auth auth self with
  | .error e => ⟨.error e, db⟩
  | .ok _ =>
    let info := db.personainfo self.value
    match check (decide (find persona_info.primary_key 1 info = none))
        "Persona info already exists" with
    | .error e => ⟨.error e, db⟩
    | .ok _ =>
      match emplace persona_info.primary_key ⟨1, initial_state_cid⟩ info with
      | .error e => ⟨.error e, db⟩
      | .ok info1 =>
        ⟨.ok (), { db with personainfo := set_scope db.personainfo self.value info1 }⟩

/-- The action `persona::submitmsg` (persona.cpp, lines 18-52). -/
def submitmsg (self : name) (auth : List name) (account_name : name)
    (pre_state_cid msg_cid full_convo_history_cid : String) (db : Database) : Outcome :=
  match require_auth auth account_name with
  | .error e => ⟨.error e, db⟩
  | .ok _ =>
    match check (!msg_cid.isEmpty) "Message CID cannot be empty" with
    | .error e => ⟨.error e, db⟩
    | .ok _ =>
      let convos := db.convos self.value
      let conv_itr := find convo_info.primary_key account_name.value convos
      let written :=
        match conv_itr with
        | none =>
          emplace convo_info.primary_key ⟨account_name, full_convo_history_cid⟩ convos
        | some obj =>
          modify convo_info.primary_key obj
            (fun row => { row with full_convo_history_cid := full_convo_history_cid }) convos
      match written with
      | .error e => ⟨.error e, db⟩
      | .ok convos1 =>
        let db1 : Database := { db with convos := set_scope db.convos self.value convos1 }
        let messages := db1.messages account_name.value
        match available_primary_key message_info.primary_key messages with
        | .error e => ⟨.error e, db1⟩
        | .ok key =>
          match emplace message_info.primary_key
              ⟨key, pre_state_cid, msg_cid, "", ""⟩ messages with
          | .error e => ⟨.error e, db1⟩
          | .ok messages1 =>
            ⟨.ok (), { db1 with
              messages := set_scope db1.messages account_name.value messages1 }⟩

/-- The action `persona::finalizemsg` (persona.cpp, lines 54-80). The message
row is written before the conversation row is looked up. -/
def finalizemsg (self : name) (auth : List name) (account_name : name) (key : Nat)
    (post_state_cid response full_convo_history_cid : String) (db : Database) : Outcome :=
  match require_auth auth self with
  | .error e => ⟨.error e, db⟩
  | .ok _ =>
    let messages := db.messages account_name.value
    match find message_info.primary_key key messages with
    | none => ⟨.error (.check_failure "Message not found"), db⟩
    | some msg_obj =>
      match modify message_info.primary_key msg_obj
          (fun row => { row with post_state_cid := post_state_cid, response := response })
          messages with
      | .error e => ⟨.error e, db⟩
      | .ok messages1 =>
        let db1 : Database :=
          { db with messages := set_scope db.messages account_name.value messages1 }
        let convos := db1.convos self.value
        match find convo_info.primary_key account_name.value convos with
        | none => ⟨.error (.check_failure "Conversation not found"), db1⟩
        | some conv_obj =>
          match modify convo_info.primary_key conv_obj
              (fun row => { row with full_convo_history_cid := full_convo_history_cid })
              convos with
          | .error e => ⟨.error e, db1⟩
          | .ok convos1 =>
            ⟨.ok (), { db1 with convos := set_scope db1.convos self.value convos1 }⟩

end persona

/-- The arguments of one call of an action of the contract. -/
inductive Action where
  | initpersona (initial_state_cid : String)
  | submitmsg (account_name : name) (pre_state_cid msg_cid full_convo_history_cid : String)
  | finalizemsg (account_name : name) (key : Nat)
      (post_state_cid response full_convo_history_cid : String)
deriving DecidableEq, Repr

/-- An action together with the actors that authorised it. -/
structure Call where
  auth : List name
  act : Action
deriving DecidableEq, Repr

/-- Run the body of the called action. -/
def dispatch (self : name) (db : Database) (c : Call) : Outcome :=
  match c.act with
  | .initpersona cid => persona.initpersona self c.auth cid db
  | .submitmsg a pre msg hist => persona.submitmsg self c.auth a pre msg hist db
  | .finalizemsg a key post resp hist => persona.finalizemsg self c.auth a key post resp hist db

/-- Modelled from the spec: the transaction around an action (the chain, not in
the repository). "Each operation executes as a single atomic transaction
against the Entity Store", "all-or-nothing commit per invocation": the writes
of a body that returned are kept, the writes of a body that aborted are
undone. -/
def push_action (self : name) (db : Database) (c : Call) : Outcome :=
  let o := dispatch self db c
  match o.result with
  | .ok _ => o
  | .error e => ⟨.error e, db⟩

/-- The database after a sequence of calls, each in its own transaction. -/
def run (self : name) : Database → List Call → Database
  | db, [] => db
  | db, c :: cs => run self (push_action self db c).db cs

/-- Whether the call is a `submitmsg` for the account. -/
def Call.submits_for (c : Call) (account : name) : Bool :=
  match c.act with
  | .submitmsg a _ _ _ => decide (a = account)
  | _ => false

/-- Number of calls of the sequence that are a `submitmsg` for the account and
succeed, when the sequence is run from `db`. -/
def submitted (self : name) (account : name) : Database → List Call → Nat
  | _, [] => 0
  | db, c :: cs =>
    (if c.submits_for account && (push_action self db c).succeeded then 1 else 0)
      + submitted self account (push_action self db c).db cs

/-- Whether the call is a `finalizemsg` for the account and the key. -/
def Call.finalizes (c : Call) (account : name) (key : Nat) : Bool :=
  match c.act with
  | .finalizemsg a k _ _ _ => decide (a = account ∧ k = key)
  | _ => false

/-- Whether the call is a `submitmsg` or a `finalizemsg` for the account. -/
def Call.on_account (c : Call) (account : name) : Bool :=
  match c.act with
  | .submitmsg a _ _ _ => decide (a = account)
  | .finalizemsg a _ _ _ _ => decide (a = account)
  | .initpersona _ => false

/-- The rows of the `convos` table after the write of `submitmsg` (persona.cpp,
lines 29-40): a new row for the account when `find` gives `end()`, the row of
the account with the new history reference otherwise. -/
def upsert (account_name : name) (full_convo_history_cid : String)
    (convos : List convo_info) : List convo_info :=
  match find convo_info.primary_key account_name.value convos with
  | none => store convo_info.primary_key ⟨account_name, full_convo_history_cid⟩ convos
  | some _ =>
    replace convo_info.primary_key account_name.value
      ⟨account_name, full_convo_history_cid⟩ convos

/-- The account the contract is deployed on in the worked scenarios. -/
def sample_self : name := ⟨1000⟩

/-- An ordinary account of the worked scenarios. -/
def alice : name := ⟨7⟩

/-- Another ordinary account of the worked scenarios. -/
def bob : name := ⟨8⟩

/-- A database that no run from the empty database produces: `alice` holds an
open message record but no conversation row. -/
def orphan_db : Database :=
  ⟨fun _ => [], fun s => if s = 7 then [⟨0, "Qpre0", "Qreq0", "", ""⟩] else [], fun _ => []⟩

/-! ## Tables: what `find` sees after `store` and `replace` -/

theorem find_nil {α : Type} (pk : α → Nat) (k : Nat) : find pk k ([] : List α) = none := rfl

theorem find_cons {α : Type} (pk : α → Nat) (k : Nat) (r : α) (rows : List α) :
    find pk k (r :: rows) = if pk r = k then some r else find pk k rows := by
  unfold find
  by_cases h : pk r = k <;> simp [List.find?_cons, h]

theorem find_some_pk {α : Type} (pk : α → Nat) (k : Nat) (rows : List α) (obj : α)
    (h : find pk k rows = some obj) : pk obj = k := by
  unfold find at h
  have := List.find?_some h
  simpa using this

theorem find_some_mem {α : Type} (pk : α → Nat) (k : Nat) (rows : List α) (obj : α)
    (h : find pk k rows = some obj) : obj ∈ rows := by
  unfold find at h
  exact List.mem_of_find?_eq_some h

theorem find_none_iff {α : Type} (pk : α → Nat) (k : Nat) (rows : List α) :
    find pk k rows = none ↔ k ∉ rows.map pk := by
  unfold find
  simp [List.find?_eq_none]

theorem find_store_other {α : Type} (pk : α → Nat) (row : α) (k : Nat) (hk : k ≠ pk row)
    (rows : List α) : find pk k (store pk row rows) = find pk k rows := by
  induction rows with
  | nil => simp [store, find_cons, find_nil, Ne.symm hk]
  | cons r rows ih =>
    unfold store
    by_cases h : pk row < pk r
    · simp [h, find_cons, Ne.symm hk]
    · simp [h, find_cons, ih]

theorem find_store_self {α : Type} (pk : α → Nat) (row : α) (rows : List α)
    (h : find pk (pk row) rows = none) : find pk (pk row) (store pk row rows) = some row := by
  induction rows with
  | nil => simp [store, find_cons]
  | cons r rows ih =>
    rw [find_cons] at h
    by_cases hr : pk r = pk row
    · simp [hr] at h
    · simp only [hr, if_false] at h
      unfold store
      by_cases hlt : pk row < pk r
      · simp [hlt, find_cons]
      · simp [hlt, find_cons, hr, ih h]

theorem map_pk_store_perm {α : Type} (pk : α → Nat) (row : α) (rows : List α) :
    (store pk row rows).Perm (row :: rows) := by
  induction rows with
  | nil => simp [store]
  | cons r rows ih =>
    unfold store
    by_cases hlt : pk row < pk r
    · simp [hlt]
    · simp only [hlt, if_false]
      exact (List.Perm.cons r ih).trans (List.Perm.swap row r rows)

theorem store_append {α : Type} (pk : α → Nat) (row : α) (rows : List α)
    (h : ∀ r ∈ rows, pk r ≤ pk row) : store pk row rows = rows ++ [row] := by
  induction rows with
  | nil => rfl
  | cons r rows ih =>
    unfold store
    have hr : ¬ pk row < pk r := Nat.not_lt.mpr (h r (List.mem_cons_self _ _))
    simp only [hr, if_false, List.cons_append]
    rw [ih (fun x hx => h x (List.mem_cons_of_mem _ hx))]

theorem find_replace_other {α : Type} (pk : α → Nat) (k k2 : Nat) (row : α)
    (hrow : pk row = k) (hk : k2 ≠ k) (rows : List α) :
    find pk k2 (replace pk k row rows) = find pk k2 rows := by
  induction rows with
  | nil => rfl
  | cons r rows ih =>
    unfold replace
    by_cases h : pk r = k
    · have h2 : pk row ≠ k2 := fun e => hk (e ▸ hrow.symm ▸ rfl)
      simp [h, find_cons, h2, Ne.symm hk]
    · simp [h, find_cons, ih]

theorem find_replace_self {α : Type} (pk : α → Nat) (k : Nat) (row : α)
    (hrow : pk row = k) (rows : List α) (h : find pk k rows ≠ none) :
    find pk k (replace pk k row rows) = some row := by
  induction rows with
  | nil => simp [find_nil] at h
  | cons r rows ih =>
    unfold replace
    by_cases hr : pk r = k
    · simp [hr, find_cons, hrow]
    · rw [find_cons] at h
      simp only [hr, if_false] at h
      simp [hr, find_cons, ih h]

theorem map_pk_replace {α : Type} (pk : α → Nat) (k : Nat) (row : α)
    (hrow : pk row = k) (rows : List α) :
    (replace pk k row rows).map pk = rows.map pk := by
  induction rows with
  | nil => rfl
  | cons r rows ih =>
    unfold replace
    by_cases hr : pk r = k
    · simp [hr, hrow]
    · simp [hr, ih]

/-! ## The platform calls as used by the contract -/

theorem require_auth_mem {auth : List name} {a : name} (h : a ∈ auth) :
    require_auth auth a = .ok () := by
  simp [require_auth, h]

theorem require_auth_not_mem {auth : List name} {a : name} (h : a ∉ auth) :
    require_auth auth a = .error (.missing_auth a) := by
  simp [require_auth, h]

theorem modify_convo (obj : convo_info) (hist : String) (rows : List convo_info) :
    sysio.modify convo_info.primary_key obj
      (fun row => { row with full_convo_history_cid := hist }) rows
    = .ok (replace convo_info.primary_key obj.account_name.value
        ⟨obj.account_name, hist⟩ rows) := by
  simp [sysio.modify, sysio.check, convo_info.primary_key]

theorem modify_message (obj : message_info) (post resp : String) (rows : List message_info) :
    sysio.modify message_info.primary_key obj
      (fun row => { row with post_state_cid := post, response := resp }) rows
    = .ok (replace message_info.primary_key obj.key
        ⟨obj.key, obj.pre_state_cid, obj.msg_cid, post, resp⟩ rows) := by
  simp [sysio.modify, sysio.check, message_info.primary_key]

theorem check_not_isEmpty (msg : String) (text : String) (h : msg ≠ "") :
    sysio.check (!msg.isEmpty) text = .ok () := by
  have : msg.isEmpty = false := by
    cases hb : msg.isEmpty
    · rfl
    · exact absurd ((String.isEmpty_iff msg).mp hb) h
  simp [sysio.check, this]

theorem available_primary_key_range {α : Type} (pk : α → Nat) (rows : List α) (n key : Nat)
    (hkeys : rows.map pk = List.range n)
    (h : available_primary_key pk rows = .ok key) : key = n := by
  have hlast : rows.getLast?.map pk = if n = 0 then none else some (n - 1) := by
    rw [← List.getLast?_map, hkeys, List.getLast?_range]
  unfold available_primary_key at h
  cases hr : rows.getLast? with
  | none =>
    rw [hr] at hlast h
    have hn : n = 0 := by
      by_contra hne
      simp [hne] at hlast
    simp [sysio.check, no_available_primary_key] at h
    omega
  | some r =>
    rw [hr] at hlast h
    have hn : n ≠ 0 := by
      intro h0
      simp [h0] at hlast
    simp only [hn, if_false, Option.map_some', Option.some.injEq] at hlast
    by_cases hge : pk r ≥ no_available_primary_key
    · simp [sysio.check, hge] at h
    · simp only [hge, if_false] at h
      by_cases hlt : pk r + 1 < no_available_primary_key
      · simp [sysio.check, hlt] at h
        omega
      · simp [sysio.check, hlt] at h

theorem available_primary_key_of_range {α : Type} (pk : α → Nat) (rows : List α) (n : Nat)
    (hkeys : rows.map pk = List.range n) (hn : n < no_available_primary_key) :
    available_primary_key pk rows = .ok n := by
  have hlast : rows.getLast?.map pk = if n = 0 then none else some (n - 1) := by
    rw [← List.getLast?_map, hkeys, List.getLast?_range]
  unfold available_primary_key
  cases hr : rows.getLast? with
  | none =>
    rw [hr] at hlast
    have h0 : n = 0 := by
      by_contra hne
      simp [hne] at hlast
    simp [sysio.check, no_available_primary_key, h0]
  | some r =>
    rw [hr] at hlast
    have h0 : n ≠ 0 := by
      intro h0
      simp [h0] at hlast
    simp only [h0, if_false, Option.map_some', Option.some.injEq] at hlast
    have hge : ¬ pk r ≥ no_available_primary_key := by omega
    have hkey : pk r + 1 = n := by omega
    simp [sysio.check, hge, hkey, hn]

/-! ## The three actions, case by case -/

theorem initpersona_unauth (self : name) (auth : List name) (cid : String) (db : Database)
    (hauth : self ∉ auth) :
    persona.initpersona self auth cid db = ⟨.error (.missing_auth self), db⟩ := by
  unfold persona.initpersona
  simp only [require_auth_not_mem hauth]

theorem initpersona_exists (self : name) (auth : List name) (cid : String) (db : Database)
    (hauth : self ∈ auth)
    (h : find persona_info.primary_key 1 (db.personainfo self.value) ≠ none) :
    persona.initpersona self auth cid db
      = ⟨.error (.check_failure "Persona info already exists"), db⟩ := by
  unfold persona.initpersona
  simp [require_auth_mem hauth, sysio.check, h]

theorem initpersona_ok (self : name) (auth : List name) (cid : String) (db : Database)
    (hauth : self ∈ auth)
    (h : find persona_info.primary_key 1 (db.personainfo self.value) = none) :
    persona.initpersona self auth cid db
      = ⟨.ok (),
         { convos := db.convos,
           messages := db.messages,
           personainfo := set_scope db.personainfo self.value
             (store persona_info.primary_key ⟨1, cid⟩ (db.personainfo self.value)) }⟩ := by
  have h1 : find persona_info.primary_key
      (persona_info.primary_key ⟨1, cid⟩) (db.personainfo self.value) = none := h
  unfold persona.initpersona
  simp [require_auth_mem hauth, sysio.check, h, emplace, h1]

theorem submitmsg_unauth (self : name) (auth : List name) (a : name)
    (pre msg hist : String) (db : Database) (hauth : a ∉ auth) :
    persona.submitmsg self auth a pre msg hist db = ⟨.error (.missing_auth a), db⟩ := by
  unfold persona.submitmsg
  simp only [require_auth_not_mem hauth]

theorem submitmsg_empty (self : name) (auth : List name) (a : name)
    (pre hist : String) (db : Database) (hauth : a ∈ auth) :
    persona.submitmsg self auth a pre "" hist db
      = ⟨.error (.check_failure "Message CID cannot be empty"), db⟩ := by
  have he : "".isEmpty = true := rfl
  unfold persona.submitmsg
  simp [require_auth_mem hauth, sysio.check, he]

/-- The conversation rows after lines 27-40 of `submitmsg`: the write never
aborts, the row of the account holds the new reference and every other row is
as before. -/
theorem submitmsg_convos (a : name) (hist : String) (rows : List convo_info) :
    ∃ rows1,
      (match find convo_info.primary_key a.value rows with
        | none => emplace convo_info.primary_key ⟨a, hist⟩ rows
        | some obj => sysio.modify convo_info.primary_key obj
            (fun row => { row with full_convo_history_cid := hist }) rows) = .ok rows1
      ∧ find convo_info.primary_key a.value rows1 = some ⟨a, hist⟩
      ∧ (∀ k, k ≠ a.value →
          find convo_info.primary_key k rows1 = find convo_info.primary_key k rows)
      ∧ (∀ k, k ≠ a.value →
          (k ∈ rows1.map convo_info.primary_key ↔ k ∈ rows.map convo_info.primary_key)) := by
  cases hf : find convo_info.primary_key a.value rows with
  | none =>
    have h1 : find convo_info.primary_key
        (convo_info.primary_key ⟨a, hist⟩) rows = none := hf
    refine ⟨store convo_info.primary_key ⟨a, hist⟩ rows, ?_, ?_, ?_, ?_⟩
    · simp [emplace, h1]
    · exact find_store_self convo_info.primary_key ⟨a, hist⟩ rows h1
    · intro k hk
      exact find_store_other convo_info.primary_key ⟨a, hist⟩ k hk rows
    · intro k hk
      have hp := (map_pk_store_perm convo_info.primary_key ⟨a, hist⟩ rows).map
        convo_info.primary_key
      rw [hp.mem_iff]
      simp [convo_info.primary_key, hk]
  | some obj =>
    have hobj : obj.account_name.value = a.value :=
      find_some_pk convo_info.primary_key a.value rows obj hf
    have hname : obj.account_name = a := by
      cases obj with
      | mk an h0 =>
        cases an
        cases a
        simp at hobj
        simp [hobj]
    refine ⟨replace convo_info.primary_key a.value ⟨a, hist⟩ rows, ?_, ?_, ?_, ?_⟩
    · simp [modify_convo, hname]
    · exact find_replace_self convo_info.primary_key a.value ⟨a, hist⟩ rfl rows (by simp [hf])
    · intro k hk
      exact find_replace_other convo_info.primary_key a.value k ⟨a, hist⟩ rfl hk rows
    · intro k _
      rw [map_pk_replace convo_info.primary_key a.value ⟨a, hist⟩ rfl rows]

/-- The body of `submitmsg` once the authorisation and the argument check are
passed: the conversation write, then the key allocation, then the insertion. -/
theorem submitmsg_shape (self : name) (auth : List name) (a : name)
    (pre msg hist : String) (db : Database) (hauth : a ∈ auth) (hmsg : msg ≠ "") :
    ∃ rows1,
      find convo_info.primary_key a.value rows1 = some ⟨a, hist⟩
      ∧ (∀ k, k ≠ a.value → find convo_info.primary_key k rows1
            = find convo_info.primary_key k (db.convos self.value))
      ∧ (∀ k, k ≠ a.value → (k ∈ rows1.map convo_info.primary_key
            ↔ k ∈ (db.convos self.value).map convo_info.primary_key))
      ∧ persona.submitmsg self auth a pre msg hist db =
          (match available_primary_key message_info.primary_key (db.messages a.value) with
            | .error e => ⟨.error e, ⟨set_scope db.convos self.value rows1, db.messages,
                db.personainfo⟩⟩
            | .ok key =>
              match find message_info.primary_key key (db.messages a.value) with
              | some _ => ⟨.error .uniqueness_violation,
                  ⟨set_scope db.convos self.value rows1, db.messages, db.personainfo⟩⟩
              | none => ⟨.ok (), ⟨set_scope db.convos self.value rows1,
                  set_scope db.messages a.value
                    (store message_info.primary_key ⟨key, pre, msg, "", ""⟩
                      (db.messages a.value)),
                  db.personainfo⟩⟩) := by
  obtain ⟨rows1, hw, h1, h2, h3⟩ := submitmsg_convos a hist (db.convos self.value)
  refine ⟨rows1, h1, h2, h3, ?_⟩
  unfold persona.submitmsg
  simp only [require_auth_mem hauth, check_not_isEmpty msg _ hmsg, hw]
  cases hk : available_primary_key message_info.primary_key (db.messages a.value) with
  | error e => rfl
  | ok key =>
    simp only [emplace, message_info.primary_key]
    cases hf : find message_info.primary_key key (db.messages a.value) with
    | none =>
      have hf2 : find (fun row : message_info => row.key) key (db.messages a.value) = none := hf
      simp only [hf2]
    | some m =>
      have hf2 : find (fun row : message_info => row.key) key (db.messages a.value) = some m := hf
      simp only [hf2]

/-- What a successful `submitmsg` did. -/
theorem submitmsg_result_ok (self : name) (auth : List name) (a : name)
    (pre msg hist : String) (db : Database)
    (h : (persona.submitmsg self auth a pre msg hist db).result = .ok ()) :
    a ∈ auth ∧ msg ≠ "" ∧ ∃ key rows1,
      available_primary_key message_info.primary_key (db.messages a.value) = .ok key
      ∧ find message_info.primary_key key (db.messages a.value) = none
      ∧ find convo_info.primary_key a.value rows1 = some ⟨a, hist⟩
      ∧ (∀ k, k ≠ a.value → find convo_info.primary_key k rows1
            = find convo_info.primary_key k (db.convos self.value))
      ∧ (∀ k, k ≠ a.value → (k ∈ rows1.map convo_info.primary_key
            ↔ k ∈ (db.convos self.value).map convo_info.primary_key))
      ∧ (persona.submitmsg self auth a pre msg hist db).db =
          ⟨set_scope db.convos self.value rows1,
           set_scope db.messages a.value
             (store message_info.primary_key ⟨key, pre, msg, "", ""⟩ (db.messages a.value)),
           db.personainfo⟩ := by
  by_cases hauth : a ∈ auth
  · by_cases hmsg : msg = ""
    · subst hmsg
      rw [submitmsg_empty self auth a pre hist db hauth] at h
      cases h
    · obtain ⟨rows1, h1, h2, h3, heq⟩ := submitmsg_shape self auth a pre msg hist db hauth hmsg
      refine ⟨hauth, hmsg, ?_⟩
      rw [heq] at h ⊢
      cases hk : available_primary_key message_info.primary_key (db.messages a.value) with
      | error e =>
        rw [hk] at h
        cases h
      | ok key =>
        rw [hk] at h
        cases hf : find message_info.primary_key key (db.messages a.value) with
        | some m =>
          simp only [hf] at h
          cases h
        | none =>
          refine ⟨key, rows1, rfl, hf, h1, h2, h3, ?_⟩
          simp only [hf]
  · rw [submitmsg_unauth self auth a pre msg hist db hauth] at h
    cases h

theorem finalizemsg_unauth (self : name) (auth : List name) (a : name) (key : Nat)
    (post resp hist : String) (db : Database) (hauth : self ∉ auth) :
    persona.finalizemsg self auth a key post resp hist db
      = ⟨.error (.missing_auth self), db⟩ := by
  unfold persona.finalizemsg
  simp only [require_auth_not_mem hauth]

theorem finalizemsg_no_message (self : name) (auth : List name) (a : name) (key : Nat)
    (post resp hist : String) (db : Database) (hauth : self ∈ auth)
    (hm : find message_info.primary_key key (db.messages a.value) = none) :
    persona.finalizemsg self auth a key post resp hist db
      = ⟨.error (.check_failure "Message not found"), db⟩ := by
  unfold persona.finalizemsg
  simp only [require_auth_mem hauth, hm]

theorem finalizemsg_no_convo (self : name) (auth : List name) (a : name) (key : Nat)
    (post resp hist : String) (db : Database) (hauth : self ∈ auth)
    (m : message_info) (hm : find message_info.primary_key key (db.messages a.value) = some m)
    (hc : find convo_info.primary_key a.value (db.convos self.value) = none) :
    persona.finalizemsg self auth a key post resp hist db
      = ⟨.error (.check_failure "Conversation not found"),
         ⟨db.convos,
          set_scope db.messages a.value
            (replace message_info.primary_key key
              ⟨key, m.pre_state_cid, m.msg_cid, post, resp⟩ (db.messages a.value)),
          db.personainfo⟩⟩ := by
  have hk : m.key = key := find_some_pk message_info.primary_key key _ m hm
  unfold persona.finalizemsg
  simp only [require_auth_mem hauth, hm, modify_message, hc, hk]

theorem finalizemsg_ok (self : name) (auth : List name) (a : name) (key : Nat)
    (post resp hist : String) (db : Database) (hauth : self ∈ auth)
    (m : message_info) (hm : find message_info.primary_key key (db.messages a.value) = some m)
    (c : convo_info) (hc : find convo_info.primary_key a.value (db.convos self.value) = some c) :
    persona.finalizemsg self auth a key post resp hist db =
      ⟨.ok (),
       ⟨set_scope db.convos self.value
          (replace convo_info.primary_key a.value ⟨a, hist⟩ (db.convos self.value)),
        set_scope db.messages a.value
          (replace message_info.primary_key key
            ⟨key, m.pre_state_cid, m.msg_cid, post, resp⟩ (db.messages a.value)),
        db.personainfo⟩⟩ := by
  have hk : m.key = key := find_some_pk message_info.primary_key key _ m hm
  have hck : c.account_name.value = a.value := find_some_pk convo_info.primary_key _ _ c hc
  have hname : c.account_name = a := by
    cases c with
    | mk an h0 =>
      cases an
      cases a
      simp at hck
      simp [hck]
  unfold persona.finalizemsg
  simp only [require_auth_mem hauth, hm, modify_message, hc, modify_convo, hk, hname]

/-- What a successful `finalizemsg` found. -/
theorem finalizemsg_result_ok (self : name) (auth : List name) (a : name) (key : Nat)
    (post resp hist : String) (db : Database)
    (h : (persona.finalizemsg self auth a key post resp hist db).result = .ok ()) :
    self ∈ auth
      ∧ (∃ m, find message_info.primary_key key (db.messages a.value) = some m)
      ∧ (∃ c, find convo_info.primary_key a.value (db.convos self.value) = some c) := by
  by_cases hauth : self ∈ auth
  · cases hm : find message_info.primary_key key (db.messages a.value) with
    | none =>
      rw [finalizemsg_no_message self auth a key post resp hist db hauth hm] at h
      cases h
    | some m =>
      cases hc : find convo_info.primary_key a.value (db.convos self.value) with
      | none =>
        rw [finalizemsg_no_convo self auth a key post resp hist db hauth m hm hc] at h
        cases h
      | some c => exact ⟨hauth, ⟨m, rfl⟩, ⟨c, rfl⟩⟩
  · rw [finalizemsg_unauth self auth a key post resp hist db hauth] at h
    cases h

/-- What a successful `initpersona` found. -/
theorem initpersona_result_ok (self : name) (auth : List name) (cid : String) (db : Database)
    (h : (persona.initpersona self auth cid db).result = .ok ()) :
    self ∈ auth ∧ find persona_info.primary_key 1 (db.personainfo self.value) = none := by
  by_cases hauth : self ∈ auth
  · cases hf : find persona_info.primary_key 1 (db.personainfo self.value) with
    | none => exact ⟨hauth, rfl⟩
    | some p =>
      rw [initpersona_exists self auth cid db hauth (by simp [hf])] at h
      cases h
  · rw [initpersona_unauth self auth cid db hauth] at h
    cases h

/-! ## The transaction around an action -/

theorem push_action_result (self : name) (db : Database) (c : Call) :
    (push_action self db c).result = (dispatch self db c).result := by
  unfold push_action
  cases h : (dispatch self db c).result <;> simp [h]

theorem push_action_ok (self : name) (db : Database) (c : Call)
    (h : (push_action self db c).result = .ok ()) :
    push_action self db c = dispatch self db c := by
  rw [push_action_result] at h
  unfold push_action
  simp [h]

theorem push_action_error (self : name) (db : Database) (c : Call) (e : Failure)
    (h : (dispatch self db c).result = .error e) :
    push_action self db c = ⟨.error e, db⟩ := by
  unfold push_action
  simp [h]

theorem push_action_db_of_error (self : name) (db : Database) (c : Call) (e : Failure)
    (h : (push_action self db c).result = .error e) : (push_action self db c).db = db := by
  rw [push_action_result] at h
  rw [push_action_error self db c e h]

theorem succeeded_iff (o : Outcome) : o.succeeded = true ↔ o.result = .ok () := by
  unfold Outcome.succeeded
  cases h : o.result <;> simp

theorem name_value_ne {a b : name} (h : a ≠ b) : a.value ≠ b.value := by
  intro hv
  apply h
  cases a
  cases b
  simp at hv
  simp [hv]

theorem set_scope_same {α : Type} (table : Nat → List α) (scope : Nat) (rows : List α) :
    set_scope table scope rows scope = rows := by
  simp [set_scope]

theorem set_scope_other {α : Type} (table : Nat → List α) (scope s : Nat) (rows : List α)
    (h : s ≠ scope) : set_scope table scope rows s = table s := by
  simp [set_scope, h]

/-! ## Keys of a message scope along a run -/

/-- One call: when the keys of the scope of `a` are `0, ..., n-1`, they are
`0, ..., n` after a successful `submitmsg` for `a` and unchanged after any
other call. -/
theorem push_action_keys (self a : name) (db : Database) (c : Call) (n : Nat)
    (h : (db.messages a.value).map message_info.primary_key = List.range n) :
    ((push_action self db c).db.messages a.value).map message_info.primary_key
      = List.range
          (n + (if c.submits_for a && (push_action self db c).succeeded then 1 else 0)) := by
  cases hres : (push_action self db c).result with
  | error e =>
    have hs : (push_action self db c).succeeded = false := by
      simp [Outcome.succeeded, hres]
    rw [push_action_db_of_error self db c e hres, hs]
    simpa using h
  | ok u =>
    have hs : (push_action self db c).succeeded = true := by
      simp [Outcome.succeeded, hres]
    have hd := push_action_ok self db c hres
    rw [hs, hd]
    rw [hd] at hres
    obtain ⟨auth, act⟩ := c
    cases act with
    | initpersona cid =>
      obtain ⟨hauth, hf⟩ := initpersona_result_ok self auth cid db hres
      simp only [dispatch, initpersona_ok self auth cid db hauth hf, Call.submits_for]
      simpa using h
    | submitmsg b pre msg hist =>
      obtain ⟨_, _, key, rows1, hk, _, _, _, _, hdb⟩ :=
        submitmsg_result_ok self auth b pre msg hist db hres
      simp only [dispatch, hdb, Call.submits_for]
      by_cases hb : b = a
      · subst hb
        have hkey : key = n :=
          available_primary_key_range message_info.primary_key _ n key h hk
        subst hkey
        have hle : ∀ r ∈ db.messages b.value,
            message_info.primary_key r ≤ message_info.primary_key ⟨key, pre, msg, "", ""⟩ := by
          intro r hr
          have : message_info.primary_key r ∈ List.range key := by
            rw [← h]
            exact List.mem_map_of_mem _ hr
          have := List.mem_range.mp this
          simp only [message_info.primary_key] at this ⊢
          omega
        rw [set_scope_same, store_append message_info.primary_key _ _ hle]
        simp [h, List.range_succ, message_info.primary_key]
      · rw [set_scope_other _ _ _ _ (name_value_ne (Ne.symm hb))]
        simpa [hb] using h
    | finalizemsg b key post resp hist =>
      obtain ⟨hauth, ⟨m, hm⟩, ⟨cv, hc⟩⟩ :=
        finalizemsg_result_ok self auth b key post resp hist db hres
      simp only [dispatch, finalizemsg_ok self auth b key post resp hist db hauth m hm cv hc,
        Call.submits_for]
      by_cases hb : b.value = a.value
      · rw [hb, set_scope_same, map_pk_replace message_info.primary_key key
          ⟨key, m.pre_state_cid, m.msg_cid, post, resp⟩ rfl]
        simpa using h
      · rw [set_scope_other _ _ _ _ (Ne.symm hb)]
        simpa using h

/-- Along a run the keys of the scope of `a` stay an initial segment of the
naturals, one longer for every successful `submitmsg` for `a`. -/
theorem run_keys (self a : name) (cs : List Call) :
    ∀ (db : Database) (n : Nat),
      (db.messages a.value).map message_info.primary_key = List.range n →
      ((run self db cs).messages a.value).map message_info.primary_key
        = List.range (n + submitted self a db cs) := by
  induction cs with
  | nil =>
    intro db n h
    simpa [run, submitted] using h
  | cons c cs ih =>
    intro db n h
    have hstep := push_action_keys self a db c n h
    have := ih (push_action self db c).db _ hstep
    simp only [run, submitted]
    rw [this, Nat.add_assoc]

/-! ## Claims about `submitmsg` -/

/-- C1: run any sequence of calls from the empty database and then a
`submitmsg` for account `a` that succeeds. With `n` the number of earlier
successful `submitmsg` calls for `a` (so this is the `n+1`-th), no record with
key `n` existed, the call appends exactly the record with key `n` to the scope
of `a`, that record is found under key `n` afterwards, and every record that
was found before the call is found unchanged after it. -/
theorem submitmsg_nth_key (self a : name) (cs : List Call) (auth : List name)
    (pre msg hist : String)
    (hok : (push_action self (run self Database.empty cs)
      ⟨auth, .submitmsg a pre msg hist⟩).result = .ok ()) :
    find message_info.primary_key (submitted self a Database.empty cs)
        ((run self Database.empty cs).messages a.value) = none
    ∧ (push_action self (run self Database.empty cs)
          ⟨auth, .submitmsg a pre msg hist⟩).db.messages a.value
        = (run self Database.empty cs).messages a.value
            ++ [⟨submitted self a Database.empty cs, pre, msg, "", ""⟩]
    ∧ find message_info.primary_key (submitted self a Database.empty cs)
        ((push_action self (run self Database.empty cs)
          ⟨auth, .submitmsg a pre msg hist⟩).db.messages a.value)
        = some ⟨submitted self a Database.empty cs, pre, msg, "", ""⟩
    ∧ ∀ k r, find message_info.primary_key k
          ((run self Database.empty cs).messages a.value) = some r →
        find message_info.primary_key k
          ((push_action self (run self Database.empty cs)
            ⟨auth, .submitmsg a pre msg hist⟩).db.messages a.value) = some r := by
  have hkeys := run_keys self a cs Database.empty 0 (by simp [Database.empty])
  rw [Nat.zero_add] at hkeys
  generalize run self Database.empty cs = db at hok hkeys ⊢
  generalize submitted self a Database.empty cs = n at hkeys ⊢
  have hd := push_action_ok self db _ hok
  rw [hd] at hok ⊢
  obtain ⟨_, _, key, rows1, hk, hnone, _, _, _, hdb⟩ :=
    submitmsg_result_ok self auth a pre msg hist db hok
  have hkey : key = n := available_primary_key_range message_info.primary_key _ n key hkeys hk
  subst hkey
  have hle : ∀ r ∈ db.messages a.value,
      message_info.primary_key r ≤ message_info.primary_key ⟨key, pre, msg, "", ""⟩ := by
    intro r hr
    have hmem : message_info.primary_key r ∈ List.range key := by
      rw [← hkeys]
      exact List.mem_map_of_mem _ hr
    have := List.mem_range.mp hmem
    simp only [message_info.primary_key] at this ⊢
    omega
  have hfind := find_store_self message_info.primary_key ⟨key, pre, msg, "", ""⟩
    (db.messages a.value) hnone
  have hother : ∀ k, k ≠ key →
      find message_info.primary_key k
        (store message_info.primary_key ⟨key, pre, msg, "", ""⟩ (db.messages a.value))
      = find message_info.primary_key k (db.messages a.value) :=
    fun k hne => find_store_other message_info.primary_key ⟨key, pre, msg, "", ""⟩ k hne _
  simp only [dispatch, hdb, set_scope_same]
  refine ⟨hnone, store_append message_info.primary_key _ _ hle, hfind, ?_⟩
  intro k r hr
  have hne : k ≠ key := by
    intro e
    rw [e, hnone] at hr
    cases hr
  rw [hother k hne, hr]

/-- The second successful `submitmsg` of `alice` creates the record with key 1
and leaves her record 0 as it was. -/
theorem submitmsg_nth_key_witness :
    (push_action sample_self
        (run sample_self Database.empty
          [⟨[sample_self], .initpersona "Qgenesis"⟩,
           ⟨[alice], .submitmsg alice "Qpre0" "" "Qhist"⟩,
           ⟨[alice], .submitmsg alice "Qpre0" "Qreq0" "Qhist0"⟩,
           ⟨[bob], .submitmsg bob "Qpre0" "Qreq0" "Qhist0"⟩])
        ⟨[alice], .submitmsg alice "Qpost0" "Qreq1" "Qhist1"⟩).result = .ok ()
    ∧ (push_action sample_self
        (run sample_self Database.empty
          [⟨[sample_self], .initpersona "Qgenesis"⟩,
           ⟨[alice], .submitmsg alice "Qpre0" "" "Qhist"⟩,
           ⟨[alice], .submitmsg alice "Qpre0" "Qreq0" "Qhist0"⟩,
           ⟨[bob], .submitmsg bob "Qpre0" "Qreq0" "Qhist0"⟩])
        ⟨[alice], .submitmsg alice "Qpost0" "Qreq1" "Qhist1"⟩).db.messages alice.value
      = [⟨0, "Qpre0", "Qreq0", "", ""⟩, ⟨1, "Qpost0", "Qreq1", "", ""⟩] :=
  ⟨rfl, (submitmsg_nth_key sample_self alice
      [⟨[sample_self], .initpersona "Qgenesis"⟩,
       ⟨[alice], .submitmsg alice "Qpre0" "" "Qhist"⟩,
       ⟨[alice], .submitmsg alice "Qpre0" "Qreq0" "Qhist0"⟩,
       ⟨[bob], .submitmsg bob "Qpre0" "Qreq0" "Qhist0"⟩]
      [alice] "Qpost0" "Qreq1" "Qhist1" rfl).2.1⟩

/-- C2: in any database, a successful `submitmsg(a, pre, msg, hist)` had a
non-empty `msg` and created, under the key handed out by
`available_primary_key` (a key not in use before), a record whose
`pre_state_cid` and `msg_cid` are the supplied values and whose
`post_state_cid` and `response` are the empty string. -/
theorem submitmsg_creates_open_record (self : name) (db : Database) (auth : List name)
    (a : name) (pre msg hist : String)
    (hok : (push_action self db ⟨auth, .submitmsg a pre msg hist⟩).result = .ok ()) :
    msg ≠ "" ∧ ∃ key,
      available_primary_key message_info.primary_key (db.messages a.value) = .ok key
      ∧ find message_info.primary_key key (db.messages a.value) = none
      ∧ find message_info.primary_key key
          ((push_action self db ⟨auth, .submitmsg a pre msg hist⟩).db.messages a.value)
        = some ⟨key, pre, msg, "", ""⟩ := by
  have hd := push_action_ok self db _ hok
  rw [hd] at hok ⊢
  obtain ⟨_, hmsg, key, rows1, hk, hnone, _, _, _, hdb⟩ :=
    submitmsg_result_ok self auth a pre msg hist db hok
  refine ⟨hmsg, key, hk, hnone, ?_⟩
  simp only [dispatch, hdb, set_scope_same]
  exact find_store_self message_info.primary_key ⟨key, pre, msg, "", ""⟩ _ hnone

/-- The first `submitmsg` of `alice` creates an open record under key 0. -/
theorem submitmsg_creates_open_record_witness :
    (push_action sample_self Database.empty
        ⟨[alice], .submitmsg alice "Qpre0" "Qreq0" "Qhist0"⟩).result = .ok ()
    ∧ "Qreq0" ≠ ""
    ∧ ∃ key,
      available_primary_key message_info.primary_key (Database.empty.messages alice.value)
        = .ok key
      ∧ find message_info.primary_key key (Database.empty.messages alice.value) = none
      ∧ find message_info.primary_key key
          ((push_action sample_self Database.empty
            ⟨[alice], .submitmsg alice "Qpre0" "Qreq0" "Qhist0"⟩).db.messages alice.value)
        = some ⟨key, "Qpre0", "Qreq0", "", ""⟩ :=
  ⟨rfl, submitmsg_creates_open_record sample_self Database.empty [alice] alice
      "Qpre0" "Qreq0" "Qhist0" rfl⟩

/-! ## The conversation row -/

/-- C3: in any database, after a successful `submitmsg` or `finalizemsg` for
account `a` with history reference `h`, the `convos` table holds a row for `a`
and that row is exactly `(a, h)`, whatever the table held for `a` before. -/
theorem history_last_writer_wins (self : name) (db : Database) (auth : List name) (a : name)
    (pre msg post resp h : String) (key : Nat) (c : Call)
    (hc : c = ⟨auth, .submitmsg a pre msg h⟩ ∨ c = ⟨auth, .finalizemsg a key post resp h⟩)
    (hok : (push_action self db c).result = .ok ()) :
    find convo_info.primary_key a.value ((push_action self db c).db.convos self.value)
      = some ⟨a, h⟩ := by
  have hd := push_action_ok self db _ hok
  rw [hd] at hok ⊢
  rcases hc with hc | hc
  · subst hc
    obtain ⟨_, _, k, rows1, _, _, hrow, _, _, hdb⟩ :=
      submitmsg_result_ok self auth a pre msg h db hok
    simp only [dispatch, hdb, set_scope_same]
    exact hrow
  · subst hc
    obtain ⟨hauth, ⟨m, hm⟩, ⟨cv, hcv⟩⟩ :=
      finalizemsg_result_ok self auth a key post resp h db hok
    simp only [dispatch, finalizemsg_ok self auth a key post resp h db hauth m hm cv hcv,
      set_scope_same]
    exact find_replace_self convo_info.primary_key a.value ⟨a, h⟩ rfl _ (by simp [hcv])

/-- The scenario of the specification: after `alice` submitted twice (history
references `Qhist0`, then `Qhist1`), closing record 0 with history reference
`Qhist0b` succeeds and leaves her conversation row at `Qhist0b`. -/
theorem history_last_writer_wins_witness :
    (push_action sample_self
        (run sample_self Database.empty
          [⟨[alice], .submitmsg alice "Qpre0" "Qreq0" "Qhist0"⟩,
           ⟨[alice], .submitmsg alice "Qpost0" "Qreq1" "Qhist1"⟩])
        ⟨[sample_self], .finalizemsg alice 0 "Qpost0" "QrespA" "Qhist0b"⟩).result = .ok ()
    ∧ find convo_info.primary_key alice.value
        ((run sample_self Database.empty
          [⟨[alice], .submitmsg alice "Qpre0" "Qreq0" "Qhist0"⟩]).convos sample_self.value)
      = some ⟨alice, "Qhist0"⟩
    ∧ find convo_info.primary_key alice.value
        ((run sample_self Database.empty
          [⟨[alice], .submitmsg alice "Qpre0" "Qreq0" "Qhist0"⟩,
           ⟨[alice], .submitmsg alice "Qpost0" "Qreq1" "Qhist1"⟩]).convos sample_self.value)
      = some ⟨alice, "Qhist1"⟩
    ∧ find convo_info.primary_key alice.value
        ((push_action sample_self
          (run sample_self Database.empty
            [⟨[alice], .submitmsg alice "Qpre0" "Qreq0" "Qhist0"⟩,
             ⟨[alice], .submitmsg alice "Qpost0" "Qreq1" "Qhist1"⟩])
          ⟨[sample_self], .finalizemsg alice 0 "Qpost0" "QrespA" "Qhist0b"⟩).db.convos
            sample_self.value)
      = some ⟨alice, "Qhist0b"⟩ :=
  ⟨rfl,
   history_last_writer_wins sample_self Database.empty [alice] alice
     "Qpre0" "Qreq0" "" "" "Qhist0" 0 ⟨[alice], .submitmsg alice "Qpre0" "Qreq0" "Qhist0"⟩
     (Or.inl rfl) rfl,
   history_last_writer_wins sample_self
     (run sample_self Database.empty [⟨[alice], .submitmsg alice "Qpre0" "Qreq0" "Qhist0"⟩])
     [alice] alice "Qpost0" "Qreq1" "" "" "Qhist1" 0
     ⟨[alice], .submitmsg alice "Qpost0" "Qreq1" "Qhist1"⟩ (Or.inl rfl) rfl,
   history_last_writer_wins sample_self
     (run sample_self Database.empty
       [⟨[alice], .submitmsg alice "Qpre0" "Qreq0" "Qhist0"⟩,
        ⟨[alice], .submitmsg alice "Qpost0" "Qreq1" "Qhist1"⟩])
     [sample_self] alice "" "" "Qpost0" "QrespA" "Qhist0b" 0
     ⟨[sample_self], .finalizemsg alice 0 "Qpost0" "QrespA" "Qhist0b"⟩ (Or.inr rfl) rfl⟩

/-! ## Claims about `finalizemsg` -/

/-- C4: in any database, when the scope of account `a` holds no record with
key `key`, `finalizemsg(a, key, ...)` authorised by the contract account aborts
with "Message not found"; the body has written nothing when it aborts, and the
database after the call is the database before it (conversation row of `a`
included). -/
theorem finalizemsg_missing_record (self : name) (db : Database) (auth : List name)
    (a : name) (key : Nat) (post resp hist : String)
    (hadmin : self ∈ auth)
    (hnone : find message_info.primary_key key (db.messages a.value) = none) :
    push_action self db ⟨auth, .finalizemsg a key post resp hist⟩
        = ⟨.error (.check_failure "Message not found"), db⟩
    ∧ dispatch self db ⟨auth, .finalizemsg a key post resp hist⟩
        = ⟨.error (.check_failure "Message not found"), db⟩ := by
  have hbody : dispatch self db ⟨auth, .finalizemsg a key post resp hist⟩
      = ⟨.error (.check_failure "Message not found"), db⟩ := by
    simp only [dispatch]
    exact finalizemsg_no_message self auth a key post resp hist db hadmin hnone
  refine ⟨?_, hbody⟩
  apply push_action_error
  rw [hbody]

/-- The scenario of the specification: `alice` holds records 0 and 1, and
`finalizemsg(alice, 5, ...)` aborts with "Message not found". -/
theorem finalizemsg_missing_record_witness :
    sample_self ∈ [sample_self]
    ∧ find message_info.primary_key 5
        ((run sample_self Database.empty
          [⟨[alice], .submitmsg alice "Qpre0" "Qreq0" "Qhist0"⟩,
           ⟨[alice], .submitmsg alice "Qpost0" "Qreq1" "Qhist1"⟩]).messages alice.value) = none
    ∧ (push_action sample_self
        (run sample_self Database.empty
          [⟨[alice], .submitmsg alice "Qpre0" "Qreq0" "Qhist0"⟩,
           ⟨[alice], .submitmsg alice "Qpost0" "Qreq1" "Qhist1"⟩])
        ⟨[sample_self], .finalizemsg alice 5 "Qpost0" "QrespA" "Qhist0b"⟩).result
      = .error (.check_failure "Message not found") :=
  ⟨by decide, rfl,
   congrArg Outcome.result
     (finalizemsg_missing_record sample_self
       (run sample_self Database.empty
         [⟨[alice], .submitmsg alice "Qpre0" "Qreq0" "Qhist0"⟩,
          ⟨[alice], .submitmsg alice "Qpost0" "Qreq1" "Qhist1"⟩])
       [sample_self] alice 5 "Qpost0" "QrespA" "Qhist0b" (by decide) rfl).1⟩

/-- C5: in any database where record `(a, key)` is `m` (open or closed) and a
conversation row of `a` exists, `finalizemsg(a, key, p, r, h)` authorised by the
contract account succeeds, and reading record `(a, key)` afterwards gives `m`
with `post_state_cid = p` and `response = r`: key, `pre_state_cid` and
`msg_cid` are those of `m`. A second `finalizemsg(a, key, p2, r2, h2)` right
after it succeeds too and the record then reads `p2`, `r2`. -/
theorem finalizemsg_sets_and_overwrites (self : name) (db : Database) (auth : List name)
    (a : name) (key : Nat) (p r h : String) (m : message_info) (c : convo_info)
    (hadmin : self ∈ auth)
    (hm : find message_info.primary_key key (db.messages a.value) = some m)
    (hc : find convo_info.primary_key a.value (db.convos self.value) = some c) :
    (push_action self db ⟨auth, .finalizemsg a key p r h⟩).result = .ok ()
    ∧ find message_info.primary_key key
        ((push_action self db ⟨auth, .finalizemsg a key p r h⟩).db.messages a.value)
      = some { m with post_state_cid := p, response := r }
    ∧ ∀ p2 r2 h2 : String,
        (push_action self (push_action self db ⟨auth, .finalizemsg a key p r h⟩).db
          ⟨auth, .finalizemsg a key p2 r2 h2⟩).result = .ok ()
        ∧ find message_info.primary_key key
            ((push_action self (push_action self db ⟨auth, .finalizemsg a key p r h⟩).db
              ⟨auth, .finalizemsg a key p2 r2 h2⟩).db.messages a.value)
          = some { m with post_state_cid := p2, response := r2 } := by
  have hkey : m.key = key := find_some_pk message_info.primary_key key _ m hm
  have once : ∀ (db0 : Database) (m0 : message_info) (c0 : convo_info) (p0 r0 h0 : String),
      find message_info.primary_key key (db0.messages a.value) = some m0 →
      find convo_info.primary_key a.value (db0.convos self.value) = some c0 →
      push_action self db0 ⟨auth, .finalizemsg a key p0 r0 h0⟩
        = ⟨.ok (),
           ⟨set_scope db0.convos self.value
              (replace convo_info.primary_key a.value ⟨a, h0⟩ (db0.convos self.value)),
            set_scope db0.messages a.value
              (replace message_info.primary_key key
                ⟨key, m0.pre_state_cid, m0.msg_cid, p0, r0⟩ (db0.messages a.value)),
            db0.personainfo⟩⟩ := by
    intro db0 m0 c0 p0 r0 h0 hm0 hc0
    have hb := finalizemsg_ok self auth a key p0 r0 h0 db0 hadmin m0 hm0 c0 hc0
    have hres : (push_action self db0 ⟨auth, .finalizemsg a key p0 r0 h0⟩).result = .ok () := by
      rw [push_action_result]
      simp only [dispatch, hb]
    rw [push_action_ok self db0 _ hres]
    simp only [dispatch, hb]
  have h1 := once db m c p r h hm hc
  have hm1 : find message_info.primary_key key
      ((push_action self db ⟨auth, .finalizemsg a key p r h⟩).db.messages a.value)
      = some ⟨key, m.pre_state_cid, m.msg_cid, p, r⟩ := by
    rw [h1]
    simp only [set_scope_same]
    exact find_replace_self message_info.primary_key key
      ⟨key, m.pre_state_cid, m.msg_cid, p, r⟩ rfl _ (by simp [hm])
  have hc1 : find convo_info.primary_key a.value
      ((push_action self db ⟨auth, .finalizemsg a key p r h⟩).db.convos self.value)
      = some ⟨a, h⟩ := by
    rw [h1]
    simp only [set_scope_same]
    exact find_replace_self convo_info.primary_key a.value ⟨a, h⟩ rfl _ (by simp [hc])
  refine ⟨by rw [h1], ?_, ?_⟩
  · rw [hm1, ← hkey]
  · intro p2 r2 h2
    have h2eq := once _ _ _ p2 r2 h2 hm1 hc1
    refine ⟨by rw [h2eq], ?_⟩
    rw [h2eq]
    simp only [set_scope_same]
    rw [find_replace_self message_info.primary_key key
      ⟨key, m.pre_state_cid, m.msg_cid, p2, r2⟩ rfl _ (by simp [hm1]), ← hkey]

/-- Record 0 of `alice`, closed once with `(Qpost0, QrespA)`, is closed again
with `(Qpost9, QrespB)`: the call succeeds and the record reads the new pair. -/
theorem finalizemsg_sets_and_overwrites_witness :
    sample_self ∈ [sample_self]
    ∧ find message_info.primary_key 0
        ((run sample_self Database.empty
          [⟨[alice], .submitmsg alice "Qpre0" "Qreq0" "Qhist0"⟩,
           ⟨[sample_self], .finalizemsg alice 0 "Qpost0" "QrespA" "Qhist0b"⟩]).messages
            alice.value)
      = some ⟨0, "Qpre0", "Qreq0", "Qpost0", "QrespA"⟩
    ∧ find convo_info.primary_key alice.value
        ((run sample_self Database.empty
          [⟨[alice], .submitmsg alice "Qpre0" "Qreq0" "Qhist0"⟩,
           ⟨[sample_self], .finalizemsg alice 0 "Qpost0" "QrespA" "Qhist0b"⟩]).convos
            sample_self.value)
      = some ⟨alice, "Qhist0b"⟩
    ∧ find message_info.primary_key 0
        ((push_action sample_self
          (run sample_self Database.empty
            [⟨[alice], .submitmsg alice "Qpre0" "Qreq0" "Qhist0"⟩,
             ⟨[sample_self], .finalizemsg alice 0 "Qpost0" "QrespA" "Qhist0b"⟩])
          ⟨[sample_self], .finalizemsg alice 0 "Qpost9" "QrespB" "Qhist0c"⟩).db.messages
            alice.value)
      = some ⟨0, "Qpre0", "Qreq0", "Qpost9", "QrespB"⟩ :=
  ⟨by decide, rfl, rfl,
   (finalizemsg_sets_and_overwrites sample_self
     (run sample_self Database.empty
       [⟨[alice], .submitmsg alice "Qpre0" "Qreq0" "Qhist0"⟩,
        ⟨[sample_self], .finalizemsg alice 0 "Qpost0" "QrespA" "Qhist0b"⟩])
     [sample_self] alice 0 "Qpost9" "QrespB" "Qhist0c"
     ⟨0, "Qpre0", "Qreq0", "Qpost0", "QrespA"⟩ ⟨alice, "Qhist0b"⟩
     (by decide) rfl rfl).2.1⟩

/-- C6: in any database, a successful `finalizemsg(a, key, p, r, h)` changes
only `post_state_cid` and `response` of record `(a, key)` and the conversation
row of `a`. The `personainfo` table is the same; every message scope other
than that of `a` is the same; in the scope of `a` every other key reads the
same and record `key` keeps its key, `pre_state_cid` and `msg_cid`; every other
`convos` scope is the same and every other conversation row reads the same;
the keys present in every message scope and every `convos` scope are the
same. -/
theorem finalizemsg_frame (self : name) (db : Database) (auth : List name)
    (a : name) (key : Nat) (p r h : String)
    (hok : (push_action self db ⟨auth, .finalizemsg a key p r h⟩).result = .ok ()) :
    (push_action self db ⟨auth, .finalizemsg a key p r h⟩).db.personainfo = db.personainfo
    ∧ (∀ scope, scope ≠ a.value →
        (push_action self db ⟨auth, .finalizemsg a key p r h⟩).db.messages scope
          = db.messages scope)
    ∧ (∀ k, k ≠ key →
        find message_info.primary_key k
          ((push_action self db ⟨auth, .finalizemsg a key p r h⟩).db.messages a.value)
        = find message_info.primary_key k (db.messages a.value))
    ∧ (∃ m, find message_info.primary_key key (db.messages a.value) = some m
        ∧ find message_info.primary_key key
            ((push_action self db ⟨auth, .finalizemsg a key p r h⟩).db.messages a.value)
          = some { m with post_state_cid := p, response := r })
    ∧ (∀ scope,
        ((push_action self db ⟨auth, .finalizemsg a key p r h⟩).db.messages scope).map
            message_info.primary_key
          = (db.messages scope).map message_info.primary_key)
    ∧ (∀ scope, scope ≠ self.value →
        (push_action self db ⟨auth, .finalizemsg a key p r h⟩).db.convos scope
          = db.convos scope)
    ∧ (∀ b : name, b ≠ a →
        find convo_info.primary_key b.value
          ((push_action self db ⟨auth, .finalizemsg a key p r h⟩).db.convos self.value)
        = find convo_info.primary_key b.value (db.convos self.value))
    ∧ (∀ scope,
        ((push_action self db ⟨auth, .finalizemsg a key p r h⟩).db.convos scope).map
            convo_info.primary_key
          = (db.convos scope).map convo_info.primary_key) := by
  have hd := push_action_ok self db _ hok
  rw [hd] at hok ⊢
  obtain ⟨hauth, ⟨m, hm⟩, ⟨cv, hcv⟩⟩ := finalizemsg_result_ok self auth a key p r h db hok
  have hkey : m.key = key := find_some_pk message_info.primary_key key _ m hm
  simp only [dispatch, finalizemsg_ok self auth a key p r h db hauth m hm cv hcv]
  refine ⟨trivial, ?_, ?_, ?_, ?_, ?_, ?_, ?_⟩
  · intro scope hs
    exact set_scope_other _ _ _ _ hs
  · intro k hk
    rw [set_scope_same]
    exact find_replace_other message_info.primary_key key k
      ⟨key, m.pre_state_cid, m.msg_cid, p, r⟩ rfl hk _
  · refine ⟨m, hm, ?_⟩
    rw [set_scope_same, find_replace_self message_info.primary_key key
      ⟨key, m.pre_state_cid, m.msg_cid, p, r⟩ rfl _ (by simp [hm]), ← hkey]
  · intro scope
    by_cases hs : scope = a.value
    · rw [hs, set_scope_same, map_pk_replace message_info.primary_key key
        ⟨key, m.pre_state_cid, m.msg_cid, p, r⟩ rfl]
    · rw [set_scope_other _ _ _ _ hs]
  · intro scope hs
    exact set_scope_other _ _ _ _ hs
  · intro b hb
    rw [set_scope_same]
    exact find_replace_other convo_info.primary_key a.value b.value ⟨a, h⟩ rfl
      (name_value_ne hb) _
  · intro scope
    by_cases hs : scope = self.value
    · rw [hs, set_scope_same, map_pk_replace convo_info.primary_key a.value ⟨a, h⟩ rfl]
    · rw [set_scope_other _ _ _ _ hs]

/-- With a genesis record, two records of `alice` and one of `bob` in place,
closing record 0 of `alice` leaves her record 1, the rows of `bob` and the
genesis record as they were. -/
theorem finalizemsg_frame_witness :
    (push_action sample_self
        (run sample_self Database.empty
          [⟨[sample_self], .initpersona "Qgenesis"⟩,
           ⟨[alice], .submitmsg alice "Qpre0" "Qreq0" "Qhist0"⟩,
           ⟨[bob], .submitmsg bob "Qpre0" "Qreq7" "Qhist7"⟩,
           ⟨[alice], .submitmsg alice "Qpost0" "Qreq1" "Qhist1"⟩])
        ⟨[sample_self], .finalizemsg alice 0 "Qpost0" "QrespA" "Qhist0b"⟩).result = .ok ()
    ∧ (push_action sample_self
        (run sample_self Database.empty
          [⟨[sample_self], .initpersona "Qgenesis"⟩,
           ⟨[alice], .submitmsg alice "Qpre0" "Qreq0" "Qhist0"⟩,
           ⟨[bob], .submitmsg bob "Qpre0" "Qreq7" "Qhist7"⟩,
           ⟨[alice], .submitmsg alice "Qpost0" "Qreq1" "Qhist1"⟩])
        ⟨[sample_self], .finalizemsg alice 0 "Qpost0" "QrespA" "Qhist0b"⟩).db.personainfo
      = (run sample_self Database.empty
          [⟨[sample_self], .initpersona "Qgenesis"⟩,
           ⟨[alice], .submitmsg alice "Qpre0" "Qreq0" "Qhist0"⟩,
           ⟨[bob], .submitmsg bob "Qpre0" "Qreq7" "Qhist7"⟩,
           ⟨[alice], .submitmsg alice "Qpost0" "Qreq1" "Qhist1"⟩]).personainfo
    ∧ find message_info.primary_key 1
        ((push_action sample_self
          (run sample_self Database.empty
            [⟨[sample_self], .initpersona "Qgenesis"⟩,
             ⟨[alice], .submitmsg alice "Qpre0" "Qreq0" "Qhist0"⟩,
             ⟨[bob], .submitmsg bob "Qpre0" "Qreq7" "Qhist7"⟩,
             ⟨[alice], .submitmsg alice "Qpost0" "Qreq1" "Qhist1"⟩])
          ⟨[sample_self], .finalizemsg alice 0 "Qpost0" "QrespA" "Qhist0b"⟩).db.messages
            alice.value)
      = some ⟨1, "Qpost0", "Qreq1", "", ""⟩ :=
  ⟨rfl,
   (finalizemsg_frame sample_self
     (run sample_self Database.empty
       [⟨[sample_self], .initpersona "Qgenesis"⟩,
        ⟨[alice], .submitmsg alice "Qpre0" "Qreq0" "Qhist0"⟩,
        ⟨[bob], .submitmsg bob "Qpre0" "Qreq7" "Qhist7"⟩,
        ⟨[alice], .submitmsg alice "Qpost0" "Qreq1" "Qhist1"⟩])
     [sample_self] alice 0 "Qpost0" "QrespA" "Qhist0b" rfl).1,
   rfl⟩

/-! ## Failing calls -/

/-- C7: in any database, `submitmsg` authorised by account `a` with an empty
`msg_cid` aborts with "Message CID cannot be empty"; the body has written
nothing when it aborts (no message record, no conversation row), and the
database after the call is the database before it. Hence every later sequence
of calls runs exactly as if the failed call had not happened, and when `a`
holds no record the next successful `submitmsg` for `a` creates key 0. -/
theorem submitmsg_empty_request (self : name) (db : Database) (auth : List name)
    (a : name) (pre hist : String) (hauth : a ∈ auth) :
    push_action self db ⟨auth, .submitmsg a pre "" hist⟩
        = ⟨.error (.check_failure "Message CID cannot be empty"), db⟩
    ∧ dispatch self db ⟨auth, .submitmsg a pre "" hist⟩
        = ⟨.error (.check_failure "Message CID cannot be empty"), db⟩
    ∧ (∀ (cs : List Call) (c : Call),
        push_action self
            (run self (push_action self db ⟨auth, .submitmsg a pre "" hist⟩).db cs) c
          = push_action self (run self db cs) c)
    ∧ (db.messages a.value = [] →
        ∀ (auth2 : List name) (pre2 msg2 hist2 : String),
          (push_action self (push_action self db ⟨auth, .submitmsg a pre "" hist⟩).db
            ⟨auth2, .submitmsg a pre2 msg2 hist2⟩).result = .ok () →
          (push_action self (push_action self db ⟨auth, .submitmsg a pre "" hist⟩).db
            ⟨auth2, .submitmsg a pre2 msg2 hist2⟩).db.messages a.value
            = [⟨0, pre2, msg2, "", ""⟩]) := by
  have hbody : dispatch self db ⟨auth, .submitmsg a pre "" hist⟩
      = ⟨.error (.check_failure "Message CID cannot be empty"), db⟩ := by
    simp only [dispatch]
    exact submitmsg_empty self auth a pre hist db hauth
  have hpush : push_action self db ⟨auth, .submitmsg a pre "" hist⟩
      = ⟨.error (.check_failure "Message CID cannot be empty"), db⟩ := by
    apply push_action_error
    rw [hbody]
  refine ⟨hpush, hbody, ?_, ?_⟩
  · intro cs c
    rw [hpush]
  · intro hempty auth2 pre2 msg2 hist2
    rw [hpush]
    intro hok
    have hd := push_action_ok self db _ hok
    rw [hd] at hok ⊢
    obtain ⟨_, _, k, rows1, hk, _, _, _, _, hdb⟩ :=
      submitmsg_result_ok self auth2 a pre2 msg2 hist2 db hok
    have hk0 : k = 0 :=
      available_primary_key_range message_info.primary_key _ 0 k (by simp [hempty]) hk
    subst hk0
    simp only [dispatch, hdb, set_scope_same, hempty, store]

/-- In the empty database `alice` submits an empty request and then a proper
one: the first call aborts, the second creates key 0. -/
theorem submitmsg_empty_request_witness :
    alice ∈ [alice]
    ∧ (push_action sample_self Database.empty
        ⟨[alice], .submitmsg alice "Qpre0" "" "Qhist0"⟩).result
      = .error (.check_failure "Message CID cannot be empty")
    ∧ (run sample_self Database.empty
        [⟨[alice], .submitmsg alice "Qpre0" "" "Qhist0"⟩,
         ⟨[alice], .submitmsg alice "Qpre0" "Qreq0" "Qhist0"⟩]).messages alice.value
      = [⟨0, "Qpre0", "Qreq0", "", ""⟩] :=
  ⟨by decide,
   congrArg Outcome.result
     (submitmsg_empty_request sample_self Database.empty [alice] alice "Qpre0" "Qhist0"
       (by decide)).1,
   rfl⟩

/-- C8: in any database, `initpersona(ref)` authorised by the contract account
succeeds exactly when the `personainfo` table holds no row with id 1. When it
succeeds, the table gained the one row `(1, ref)`: it is read under id 1, the
rows of the table are the old rows and this one, every other id and every other
scope read as before, and the `convos` and `messages` tables are the same. When
a row with id 1 exists, the call aborts with "Persona info already exists",
the body has written nothing, and the database (so also that row) is the same
after the call. -/
theorem initpersona_once (self : name) (db : Database) (auth : List name) (ref : String)
    (hadmin : self ∈ auth) :
    ((push_action self db ⟨auth, .initpersona ref⟩).result = .ok ()
      ↔ find persona_info.primary_key 1 (db.personainfo self.value) = none)
    ∧ (find persona_info.primary_key 1 (db.personainfo self.value) = none →
        find persona_info.primary_key 1
            ((push_action self db ⟨auth, .initpersona ref⟩).db.personainfo self.value)
          = some ⟨1, ref⟩
        ∧ ((push_action self db ⟨auth, .initpersona ref⟩).db.personainfo self.value).Perm
            (⟨1, ref⟩ :: db.personainfo self.value)
        ∧ (∀ k, k ≠ 1 →
            find persona_info.primary_key k
              ((push_action self db ⟨auth, .initpersona ref⟩).db.personainfo self.value)
            = find persona_info.primary_key k (db.personainfo self.value))
        ∧ (∀ scope, scope ≠ self.value →
            (push_action self db ⟨auth, .initpersona ref⟩).db.personainfo scope
              = db.personainfo scope)
        ∧ (push_action self db ⟨auth, .initpersona ref⟩).db.convos = db.convos
        ∧ (push_action self db ⟨auth, .initpersona ref⟩).db.messages = db.messages)
    ∧ (∀ g, find persona_info.primary_key 1 (db.personainfo self.value) = some g →
        push_action self db ⟨auth, .initpersona ref⟩
          = ⟨.error (.check_failure "Persona info already exists"), db⟩
        ∧ dispatch self db ⟨auth, .initpersona ref⟩
          = ⟨.error (.check_failure "Persona info already exists"), db⟩) := by
  have hsucc : find persona_info.primary_key 1 (db.personainfo self.value) = none →
      push_action self db ⟨auth, .initpersona ref⟩
        = ⟨.ok (),
           ⟨db.convos, db.messages,
            set_scope db.personainfo self.value
              (store persona_info.primary_key ⟨1, ref⟩ (db.personainfo self.value))⟩⟩ := by
    intro hnone
    have hb := initpersona_ok self auth ref db hadmin hnone
    have hres : (push_action self db ⟨auth, .initpersona ref⟩).result = .ok () := by
      rw [push_action_result]
      simp only [dispatch, hb]
    rw [push_action_ok self db _ hres]
    simp only [dispatch, hb]
  have hfail : ∀ g, find persona_info.primary_key 1 (db.personainfo self.value) = some g →
      dispatch self db ⟨auth, .initpersona ref⟩
        = ⟨.error (.check_failure "Persona info already exists"), db⟩ := by
    intro g hg
    simp only [dispatch]
    exact initpersona_exists self auth ref db hadmin (by simp [hg])
  refine ⟨⟨?_, ?_⟩, ?_, ?_⟩
  · intro hok
    rw [push_action_result] at hok
    exact (initpersona_result_ok self auth ref db hok).2
  · intro hnone
    rw [hsucc hnone]
  · intro hnone
    rw [hsucc hnone]
    simp only [set_scope_same]
    refine ⟨?_, ?_, ?_, ?_, trivial, trivial⟩
    · exact find_store_self persona_info.primary_key ⟨1, ref⟩ _ hnone
    · exact map_pk_store_perm persona_info.primary_key ⟨1, ref⟩ _
    · intro k hk
      exact find_store_other persona_info.primary_key ⟨1, ref⟩ k hk _
    · intro scope hs
      exact set_scope_other _ _ _ _ hs
  · intro g hg
    refine ⟨?_, hfail g hg⟩
    apply push_action_error
    rw [hfail g hg]

/-- The scenario of the specification: `initpersona("Qgenesis")` succeeds on the
empty database, `initpersona("Qother")` then aborts with "Persona info already
exists" and the genesis row still holds `Qgenesis`. -/
theorem initpersona_once_witness :
    sample_self ∈ [sample_self]
    ∧ (push_action sample_self Database.empty
        ⟨[sample_self], .initpersona "Qgenesis"⟩).result = .ok ()
    ∧ (push_action sample_self
        (run sample_self Database.empty [⟨[sample_self], .initpersona "Qgenesis"⟩])
        ⟨[sample_self], .initpersona "Qother"⟩).result
      = .error (.check_failure "Persona info already exists")
    ∧ (run sample_self Database.empty
        [⟨[sample_self], .initpersona "Qgenesis"⟩,
         ⟨[sample_self], .initpersona "Qother"⟩]).personainfo sample_self.value
      = [⟨1, "Qgenesis"⟩] :=
  ⟨by decide,
   ((initpersona_once sample_self Database.empty [sample_self] "Qgenesis" (by decide)).1).2
     rfl,
   congrArg Outcome.result
     (((initpersona_once sample_self
       (run sample_self Database.empty [⟨[sample_self], .initpersona "Qgenesis"⟩])
       [sample_self] "Qother" (by decide)).2.2) ⟨1, "Qgenesis"⟩ rfl).1,
   rfl⟩

/-- C9: in any database and for any arguments, `submitmsg(a, ...)` aborts with
the missing-authority failure for `a` when `a` is not among the actors that
authorised the call, and `initpersona` and `finalizemsg` abort with the
missing-authority failure for the contract account when that account is not
among them. The failure does not depend on the database or on the other
arguments (empty `msg_cid`, missing record, existing genesis row): the
authorisation is checked first. The body has written nothing when it aborts
and the database after the call is the database before it. -/
theorem unauthorized_before_all (self : name) (db : Database) (auth : List name) :
    (∀ (a : name) (pre msg hist : String), a ∉ auth →
      push_action self db ⟨auth, .submitmsg a pre msg hist⟩ = ⟨.error (.missing_auth a), db⟩
      ∧ dispatch self db ⟨auth, .submitmsg a pre msg hist⟩ = ⟨.error (.missing_auth a), db⟩)
    ∧ (∀ ref : String, self ∉ auth →
      push_action self db ⟨auth, .initpersona ref⟩ = ⟨.error (.missing_auth self), db⟩
      ∧ dispatch self db ⟨auth, .initpersona ref⟩ = ⟨.error (.missing_auth self), db⟩)
    ∧ (∀ (a : name) (key : Nat) (post resp hist : String), self ∉ auth →
      push_action self db ⟨auth, .finalizemsg a key post resp hist⟩
        = ⟨.error (.missing_auth self), db⟩
      ∧ dispatch self db ⟨auth, .finalizemsg a key post resp hist⟩
        = ⟨.error (.missing_auth self), db⟩) := by
  refine ⟨?_, ?_, ?_⟩
  · intro a pre msg hist hauth
    have hbody : dispatch self db ⟨auth, .submitmsg a pre msg hist⟩
        = ⟨.error (.missing_auth a), db⟩ := by
      simp only [dispatch]
      exact submitmsg_unauth self auth a pre msg hist db hauth
    refine ⟨?_, hbody⟩
    apply push_action_error
    rw [hbody]
  · intro ref hauth
    have hbody : dispatch self db ⟨auth, .initpersona ref⟩
        = ⟨.error (.missing_auth self), db⟩ := by
      simp only [dispatch]
      exact initpersona_unauth self auth ref db hauth
    refine ⟨?_, hbody⟩
    apply push_action_error
    rw [hbody]
  · intro a key post resp hist hauth
    have hbody : dispatch self db ⟨auth, .finalizemsg a key post resp hist⟩
        = ⟨.error (.missing_auth self), db⟩ := by
      simp only [dispatch]
      exact finalizemsg_unauth self auth a key post resp hist db hauth
    refine ⟨?_, hbody⟩
    apply push_action_error
    rw [hbody]

/-- Calls authorised by `bob` alone: a `submitmsg` for `alice` with an empty
request, an `initpersona` after the genesis row exists and a `finalizemsg` of a
missing record all abort with the missing-authority failure. -/
theorem unauthorized_before_all_witness :
    alice ∉ [bob] ∧ sample_self ∉ [bob]
    ∧ (push_action sample_self
        (run sample_self Database.empty [⟨[sample_self], .initpersona "Qgenesis"⟩])
        ⟨[bob], .submitmsg alice "Qpre0" "" "Qhist0"⟩).result
      = .error (.missing_auth alice)
    ∧ (push_action sample_self
        (run sample_self Database.empty [⟨[sample_self], .initpersona "Qgenesis"⟩])
        ⟨[bob], .initpersona "Qother"⟩).result
      = .error (.missing_auth sample_self)
    ∧ (push_action sample_self
        (run sample_self Database.empty [⟨[sample_self], .initpersona "Qgenesis"⟩])
        ⟨[bob], .finalizemsg alice 5 "Qpost0" "QrespA" "Qhist0b"⟩).result
      = .error (.missing_auth sample_self) :=
  ⟨by decide, by decide,
   congrArg Outcome.result
     (((unauthorized_before_all sample_self
       (run sample_self Database.empty [⟨[sample_self], .initpersona "Qgenesis"⟩])
       [bob]).1 alice "Qpre0" "" "Qhist0" (by decide)).1),
   congrArg Outcome.result
     (((unauthorized_before_all sample_self
       (run sample_self Database.empty [⟨[sample_self], .initpersona "Qgenesis"⟩])
       [bob]).2.1 "Qother" (by decide)).1),
   congrArg Outcome.result
     (((unauthorized_before_all sample_self
       (run sample_self Database.empty [⟨[sample_self], .initpersona "Qgenesis"⟩])
       [bob]).2.2 alice 5 "Qpost0" "QrespA" "Qhist0b" (by decide)).1)⟩

/-- C10: in any database, reachable or not, a call of `initpersona`,
`submitmsg` or `finalizemsg` that fails leaves the database as it was before
the call. In particular, when record `(a, key)` exists and `a` has no
conversation row, `finalizemsg(a, key, ...)` authorised by the contract account
aborts with "Conversation not found" after its body has written the record, and
the record reads after the call what it read before. -/
theorem failed_call_keeps_database (self : name) (db : Database) :
    (∀ (c : Call) (e : Failure),
      (push_action self db c).result = .error e → (push_action self db c).db = db)
    ∧ (∀ (auth : List name) (a : name) (key : Nat) (post resp hist : String)
        (m : message_info),
      self ∈ auth →
      find message_info.primary_key key (db.messages a.value) = some m →
      find convo_info.primary_key a.value (db.convos self.value) = none →
      (dispatch self db ⟨auth, .finalizemsg a key post resp hist⟩).result
          = .error (.check_failure "Conversation not found")
      ∧ find message_info.primary_key key
          ((dispatch self db ⟨auth, .finalizemsg a key post resp hist⟩).db.messages a.value)
          = some { m with post_state_cid := post, response := resp }
      ∧ push_action self db ⟨auth, .finalizemsg a key post resp hist⟩
          = ⟨.error (.check_failure "Conversation not found"), db⟩
      ∧ find message_info.primary_key key
          ((push_action self db ⟨auth, .finalizemsg a key post resp hist⟩).db.messages a.value)
          = some m) := by
  refine ⟨fun c e h => push_action_db_of_error self db c e h, ?_⟩
  intro auth a key post resp hist m hadmin hm hc
  have hkey : m.key = key := find_some_pk message_info.primary_key key _ m hm
  have hbody := finalizemsg_no_convo self auth a key post resp hist db hadmin m hm hc
  have hpush : push_action self db ⟨auth, .finalizemsg a key post resp hist⟩
      = ⟨.error (.check_failure "Conversation not found"), db⟩ := by
    apply push_action_error
    simp only [dispatch, hbody]
  refine ⟨by simp only [dispatch, hbody], ?_, hpush, by rw [hpush]; exact hm⟩
  simp only [dispatch, hbody, set_scope_same]
  rw [find_replace_self message_info.primary_key key
    ⟨key, m.pre_state_cid, m.msg_cid, post, resp⟩ rfl _ (by simp [hm]), ← hkey]

/-- On the database where `alice` holds record 0 but no conversation row,
`finalizemsg(alice, 0, ...)` aborts with "Conversation not found" and record 0
is still open afterwards. -/
theorem failed_call_keeps_database_witness :
    sample_self ∈ [sample_self]
    ∧ find message_info.primary_key 0 (orphan_db.messages alice.value)
      = some ⟨0, "Qpre0", "Qreq0", "", ""⟩
    ∧ find convo_info.primary_key alice.value (orphan_db.convos sample_self.value) = none
    ∧ (push_action sample_self orphan_db
        ⟨[sample_self], .finalizemsg alice 0 "Qpost0" "QrespA" "Qhist0b"⟩).result
      = .error (.check_failure "Conversation not found")
    ∧ find message_info.primary_key 0
        ((push_action sample_self orphan_db
          ⟨[sample_self], .finalizemsg alice 0 "Qpost0" "QrespA" "Qhist0b"⟩).db.messages
            alice.value)
      = some ⟨0, "Qpre0", "Qreq0", "", ""⟩ :=
  ⟨by decide, rfl, rfl,
   congrArg Outcome.result
     (((failed_call_keeps_database sample_self orphan_db).2 [sample_self] alice 0
       "Qpost0" "QrespA" "Qhist0b" ⟨0, "Qpre0", "Qreq0", "", ""⟩ (by decide) rfl rfl).2.2.1),
   rfl⟩

/-! ## Conversation rows and message scopes along a run -/

theorem store_ne_nil {α : Type} (pk : α → Nat) (row : α) (rows : List α) :
    store pk row rows ≠ [] := by
  cases rows with
  | nil => simp [store]
  | cons r rows =>
    unfold store
    by_cases h : pk row < pk r <;> simp [h]

theorem replace_eq_nil_iff {α : Type} (pk : α → Nat) (k : Nat) (row : α) (rows : List α) :
    replace pk k row rows = [] ↔ rows = [] := by
  cases rows with
  | nil => simp [replace]
  | cons r rows =>
    unfold replace
    by_cases h : pk r = k <;> simp [h]

/-- One call keeps the link between the two tables: when every account has a
conversation row exactly if its message scope is not empty, the same holds
after the call. -/
theorem push_action_pointer_iff (self : name) (db : Database) (c : Call)
    (h : ∀ a : name, find convo_info.primary_key a.value (db.convos self.value) ≠ none
        ↔ db.messages a.value ≠ []) :
    ∀ a : name,
      find convo_info.primary_key a.value ((push_action self db c).db.convos self.value) ≠ none
        ↔ (push_action self db c).db.messages a.value ≠ [] := by
  cases hres : (push_action self db c).result with
  | error e =>
    rw [push_action_db_of_error self db c e hres]
    exact h
  | ok u =>
    have hd := push_action_ok self db c hres
    rw [hd]
    rw [hd] at hres
    obtain ⟨auth, act⟩ := c
    cases act with
    | initpersona cid =>
      obtain ⟨hauth, hf⟩ := initpersona_result_ok self auth cid db hres
      simp only [dispatch, initpersona_ok self auth cid db hauth hf]
      exact h
    | submitmsg b pre msg hist =>
      obtain ⟨_, _, key, rows1, _, _, hrow, hothers, _, hdb⟩ :=
        submitmsg_result_ok self auth b pre msg hist db hres
      simp only [dispatch, hdb, set_scope_same]
      intro a
      by_cases hab : a = b
      · subst hab
        rw [hrow, set_scope_same]
        simp [store_ne_nil]
      · rw [hothers a.value (name_value_ne hab),
          set_scope_other _ _ _ _ (name_value_ne hab)]
        exact h a
    | finalizemsg b key post resp hist =>
      obtain ⟨hauth, ⟨m, hm⟩, ⟨cv, hcv⟩⟩ :=
        finalizemsg_result_ok self auth b key post resp hist db hres
      simp only [dispatch, finalizemsg_ok self auth b key post resp hist db hauth m hm cv hcv,
        set_scope_same]
      intro a
      by_cases hab : a = b
      · subst hab
        rw [set_scope_same,
          find_replace_self convo_info.primary_key a.value ⟨a, hist⟩ rfl _ (by simp [hcv])]
        have hne : db.messages a.value ≠ [] := (h a).mp (by simp [hcv])
        simp [replace_eq_nil_iff, hne]
      · rw [find_replace_other convo_info.primary_key b.value a.value ⟨b, hist⟩ rfl
            (name_value_ne hab),
          set_scope_other _ _ _ _ (name_value_ne hab)]
        exact h a

/-- Along a run from the empty database every account has a conversation row
exactly if its message scope is not empty. -/
theorem run_pointer_iff (self : name) (cs : List Call) :
    ∀ db : Database,
      (∀ a : name, find convo_info.primary_key a.value (db.convos self.value) ≠ none
          ↔ db.messages a.value ≠ []) →
      ∀ a : name,
        find convo_info.primary_key a.value ((run self db cs).convos self.value) ≠ none
          ↔ (run self db cs).messages a.value ≠ [] := by
  induction cs with
  | nil =>
    intro db h
    exact h
  | cons c cs ih =>
    intro db h
    exact ih _ (push_action_pointer_iff self db c h)

theorem empty_pointer_iff (self : name) (a : name) :
    find convo_info.primary_key a.value (Database.empty.convos self.value) ≠ none
      ↔ Database.empty.messages a.value ≠ [] := by
  simp [Database.empty, find_nil]

/-- A successful `submitmsg` for `a` on a database where the keys of the scope
of `a` are `0, ..., n-1`: the scope gains the row with key `n` at its end and
the conversation row of `a` exists afterwards. -/
theorem submitmsg_append (self a : name) (db : Database) (n : Nat) (auth : List name)
    (pre msg hist : String)
    (hkeys : (db.messages a.value).map message_info.primary_key = List.range n)
    (hok : (push_action self db ⟨auth, .submitmsg a pre msg hist⟩).result = .ok ()) :
    (push_action self db ⟨auth, .submitmsg a pre msg hist⟩).db.messages a.value
        = db.messages a.value ++ [⟨n, pre, msg, "", ""⟩]
    ∧ find message_info.primary_key n
        ((push_action self db ⟨auth, .submitmsg a pre msg hist⟩).db.messages a.value)
        = some ⟨n, pre, msg, "", ""⟩
    ∧ find convo_info.primary_key a.value
        ((push_action self db ⟨auth, .submitmsg a pre msg hist⟩).db.convos self.value)
        = some ⟨a, hist⟩ := by
  have hd := push_action_ok self db _ hok
  rw [hd] at hok ⊢
  obtain ⟨_, _, key, rows1, hk, hnone, hrow, _, _, hdb⟩ :=
    submitmsg_result_ok self auth a pre msg hist db hok
  have hkey : key = n := available_primary_key_range message_info.primary_key _ n key hkeys hk
  subst hkey
  have hle : ∀ r ∈ db.messages a.value,
      message_info.primary_key r ≤ message_info.primary_key ⟨key, pre, msg, "", ""⟩ := by
    intro r hr
    have hmem : message_info.primary_key r ∈ List.range key := by
      rw [← hkeys]
      exact List.mem_map_of_mem _ hr
    have := List.mem_range.mp hmem
    simp only [message_info.primary_key] at this ⊢
    omega
  simp only [dispatch, hdb, set_scope_same]
  exact ⟨store_append message_info.primary_key _ _ hle,
    find_store_self message_info.primary_key ⟨key, pre, msg, "", ""⟩ _ hnone, hrow⟩

/-- With the contract account among the authorising actors, the record and the
conversation row in place, `finalizemsg` succeeds. -/
theorem finalizemsg_push_ok (self : name) (db : Database) (auth : List name) (a : name)
    (key : Nat) (post resp hist : String) (hadmin : self ∈ auth)
    (m : message_info) (hm : find message_info.primary_key key (db.messages a.value) = some m)
    (c : convo_info) (hc : find convo_info.primary_key a.value (db.convos self.value) = some c) :
    (push_action self db ⟨auth, .finalizemsg a key post resp hist⟩).result = .ok () := by
  rw [push_action_result]
  simp only [dispatch, finalizemsg_ok self auth a key post resp hist db hadmin m hm c hc]

/-! ## What `submitmsg` gives back -/

/-- C11 (as stated, refuted): the action returns nothing. The first and the
second `submitmsg` of `alice` both succeed with the same result, the unit
value, while the records they create have keys 0 and 1: no function of the
result gives the assigned key. -/
theorem submitmsg_result_carries_no_key :
    (push_action sample_self Database.empty
        ⟨[alice], .submitmsg alice "Qpre0" "Qreq0" "Qhist0"⟩).result
      = (push_action sample_self
          (run sample_self Database.empty
            [⟨[alice], .submitmsg alice "Qpre0" "Qreq0" "Qhist0"⟩])
          ⟨[alice], .submitmsg alice "Qpost0" "Qreq1" "Qhist1"⟩).result
    ∧ (push_action sample_self Database.empty
        ⟨[alice], .submitmsg alice "Qpre0" "Qreq0" "Qhist0"⟩).db.messages alice.value
      = [⟨0, "Qpre0", "Qreq0", "", ""⟩]
    ∧ (push_action sample_self
          (run sample_self Database.empty
            [⟨[alice], .submitmsg alice "Qpre0" "Qreq0" "Qhist0"⟩])
          ⟨[alice], .submitmsg alice "Qpost0" "Qreq1" "Qhist1"⟩).db.messages alice.value
      = [⟨0, "Qpre0", "Qreq0", "", ""⟩, ⟨1, "Qpost0", "Qreq1", "", ""⟩]
    ∧ ¬ ∃ key_of : Except Failure Unit → Nat,
        key_of (push_action sample_self Database.empty
          ⟨[alice], .submitmsg alice "Qpre0" "Qreq0" "Qhist0"⟩).result = 0
        ∧ key_of (push_action sample_self
            (run sample_self Database.empty
              [⟨[alice], .submitmsg alice "Qpre0" "Qreq0" "Qhist0"⟩])
            ⟨[alice], .submitmsg alice "Qpost0" "Qreq1" "Qhist1"⟩).result = 1 := by
  have hsame : (push_action sample_self Database.empty
        ⟨[alice], .submitmsg alice "Qpre0" "Qreq0" "Qhist0"⟩).result
      = (push_action sample_self
          (run sample_self Database.empty
            [⟨[alice], .submitmsg alice "Qpre0" "Qreq0" "Qhist0"⟩])
          ⟨[alice], .submitmsg alice "Qpost0" "Qreq1" "Qhist1"⟩).result := rfl
  refine ⟨hsame, rfl, rfl, ?_⟩
  rintro ⟨key_of, h0, h1⟩
  rw [hsame, h1] at h0
  exact absurd h0 (by decide)

/-! ## States reached from the empty database -/

theorem find_ne_none_of_mem_keys {α : Type} (pk : α → Nat) (k : Nat) (rows : List α)
    (h : k ∈ rows.map pk) : ∃ r, find pk k rows = some r := by
  cases hf : find pk k rows with
  | none => exact absurd h ((find_none_iff pk k rows).mp hf)
  | some r => exact ⟨r, rfl⟩

theorem mem_keys_of_find {α : Type} (pk : α → Nat) (k : Nat) (rows : List α) (r : α)
    (h : find pk k rows = some r) : k ∈ rows.map pk := by
  by_contra hk
  rw [(find_none_iff pk k rows).mpr hk] at h
  cases h

/-- C12: after any run from the empty database and for every account `a`, the
`convos` table holds a row for `a` exactly if the message scope of `a` is not
empty, and that is the case exactly if at least one `submitmsg` for `a`
succeeded during the run. -/
theorem pointer_iff_submitted (self a : name) (cs : List Call) :
    (find convo_info.primary_key a.value
        ((run self Database.empty cs).convos self.value) ≠ none
      ↔ (run self Database.empty cs).messages a.value ≠ [])
    ∧ ((run self Database.empty cs).messages a.value ≠ []
      ↔ 0 < submitted self a Database.empty cs) := by
  refine ⟨run_pointer_iff self cs Database.empty (empty_pointer_iff self) a, ?_⟩
  have hkeys := run_keys self a cs Database.empty 0 (by simp [Database.empty])
  rw [Nat.zero_add] at hkeys
  have hlen : ((run self Database.empty cs).messages a.value).length
      = submitted self a Database.empty cs := by
    have := congrArg List.length hkeys
    simpa using this
  rw [← hlen, List.length_pos]

/-- C16: after any run from the empty database, when a record with key `key`
exists for account `a`, `finalizemsg(a, key, ...)` authorised by the contract
account succeeds; it does not abort with "Conversation not found". -/
theorem finalizemsg_pointer_check_unreachable (self a : name) (cs : List Call)
    (auth : List name) (key : Nat) (post resp hist : String) (m : message_info)
    (hadmin : self ∈ auth)
    (hm : find message_info.primary_key key
      ((run self Database.empty cs).messages a.value) = some m) :
    (push_action self (run self Database.empty cs)
        ⟨auth, .finalizemsg a key post resp hist⟩).result = .ok ()
    ∧ (push_action self (run self Database.empty cs)
        ⟨auth, .finalizemsg a key post resp hist⟩).result
      ≠ .error (.check_failure "Conversation not found") := by
  have hne : (run self Database.empty cs).messages a.value ≠ [] := by
    intro hnil
    rw [hnil, find_nil] at hm
    cases hm
  have hptr := (run_pointer_iff self cs Database.empty (empty_pointer_iff self) a).mpr hne
  cases hc : find convo_info.primary_key a.value
      ((run self Database.empty cs).convos self.value) with
  | none => exact absurd hc hptr
  | some c =>
    have hok := finalizemsg_push_ok self _ auth a key post resp hist hadmin m hm c hc
    refine ⟨hok, ?_⟩
    rw [hok]
    intro h
    cases h

/-- After `alice` submitted once, `finalizemsg(alice, 0, ...)` authorised by the
contract account succeeds. -/
theorem finalizemsg_pointer_check_unreachable_witness :
    sample_self ∈ [sample_self]
    ∧ find message_info.primary_key 0
        ((run sample_self Database.empty
          [⟨[alice], .submitmsg alice "Qpre0" "Qreq0" "Qhist0"⟩]).messages alice.value)
      = some ⟨0, "Qpre0", "Qreq0", "", ""⟩
    ∧ (push_action sample_self
        (run sample_self Database.empty
          [⟨[alice], .submitmsg alice "Qpre0" "Qreq0" "Qhist0"⟩])
        ⟨[sample_self], .finalizemsg alice 0 "Qpost0" "QrespA" "Qhist0b"⟩).result = .ok () :=
  ⟨by decide, rfl,
   (finalizemsg_pointer_check_unreachable sample_self alice
     [⟨[alice], .submitmsg alice "Qpre0" "Qreq0" "Qhist0"⟩]
     [sample_self] 0 "Qpost0" "QrespA" "Qhist0b" ⟨0, "Qpre0", "Qreq0", "", ""⟩
     (by decide) rfl).1⟩

/-- C17: after any run from the empty database, the keys of the message scope
of account `a` are `0, 1, ..., n-1` (in this order, each once), `n` being the
number of successful `submitmsg` calls for `a` in the run; and
`finalizemsg(a, key, ...)` authorised by the contract account succeeds exactly
if `key < n`. -/
theorem keys_contiguous (self a : name) (cs : List Call) :
    ((run self Database.empty cs).messages a.value).map message_info.primary_key
      = List.range (submitted self a Database.empty cs)
    ∧ ∀ (auth : List name) (key : Nat) (post resp hist : String), self ∈ auth →
        ((push_action self (run self Database.empty cs)
            ⟨auth, .finalizemsg a key post resp hist⟩).result = .ok ()
          ↔ key < submitted self a Database.empty cs) := by
  have hkeys := run_keys self a cs Database.empty 0 (by simp [Database.empty])
  rw [Nat.zero_add] at hkeys
  refine ⟨hkeys, ?_⟩
  intro auth key post resp hist hadmin
  constructor
  · intro hok
    rw [push_action_result] at hok
    obtain ⟨_, ⟨m, hm⟩, _⟩ := finalizemsg_result_ok self auth a key post resp hist _ hok
    have := mem_keys_of_find message_info.primary_key key _ m hm
    rw [hkeys] at this
    exact List.mem_range.mp this
  · intro hlt
    have hmem : key ∈ ((run self Database.empty cs).messages a.value).map
        message_info.primary_key := by
      rw [hkeys]
      exact List.mem_range.mpr hlt
    obtain ⟨m, hm⟩ := find_ne_none_of_mem_keys message_info.primary_key key _ hmem
    have hne : (run self Database.empty cs).messages a.value ≠ [] := by
      intro hnil
      rw [hnil, find_nil] at hm
      cases hm
    have hptr := (run_pointer_iff self cs Database.empty (empty_pointer_iff self) a).mpr hne
    cases hc : find convo_info.primary_key a.value
        ((run self Database.empty cs).convos self.value) with
    | none => exact absurd hc hptr
    | some c => exact finalizemsg_push_ok self _ auth a key post resp hist hadmin m hm c hc

/-- After two successful and one failed `submitmsg` of `alice`, her keys are 0
and 1; `finalizemsg` succeeds for key 1 and not for key 2. -/
theorem keys_contiguous_witness :
    ((run sample_self Database.empty
        [⟨[alice], .submitmsg alice "Qpre0" "Qreq0" "Qhist0"⟩,
         ⟨[alice], .submitmsg alice "Qpre0" "" "Qhist0"⟩,
         ⟨[alice], .submitmsg alice "Qpost0" "Qreq1" "Qhist1"⟩]).messages alice.value).map
          message_info.primary_key
      = [0, 1]
    ∧ sample_self ∈ [sample_self]
    ∧ ((push_action sample_self
        (run sample_self Database.empty
          [⟨[alice], .submitmsg alice "Qpre0" "Qreq0" "Qhist0"⟩,
           ⟨[alice], .submitmsg alice "Qpre0" "" "Qhist0"⟩,
           ⟨[alice], .submitmsg alice "Qpost0" "Qreq1" "Qhist1"⟩])
        ⟨[sample_self], .finalizemsg alice 1 "Qpost1" "QrespB" "Qhist1b"⟩).result = .ok ()
      ↔ 1 < 2) :=
  ⟨(keys_contiguous sample_self alice
      [⟨[alice], .submitmsg alice "Qpre0" "Qreq0" "Qhist0"⟩,
       ⟨[alice], .submitmsg alice "Qpre0" "" "Qhist0"⟩,
       ⟨[alice], .submitmsg alice "Qpost0" "Qreq1" "Qhist1"⟩]).1,
   by decide,
   (keys_contiguous sample_self alice
      [⟨[alice], .submitmsg alice "Qpre0" "Qreq0" "Qhist0"⟩,
       ⟨[alice], .submitmsg alice "Qpre0" "" "Qhist0"⟩,
       ⟨[alice], .submitmsg alice "Qpost0" "Qreq1" "Qhist1"⟩]).2
     [sample_self] 1 "Qpost1" "QrespB" "Qhist1b" (by decide)⟩

/-- C18: after any run from the empty database in which account `a` holds
fewer than `2^64 - 2` records, `submitmsg` authorised by `a` with a non-empty
`msg_cid` succeeds, for every `pre_state_cid` and `full_convo_history_cid`
(empty ones included), with or without a genesis row and whatever the state of
the earlier records of `a`. -/
theorem submitmsg_succeeds (self a : name) (cs : List Call) (auth : List name)
    (pre msg hist : String) (hauth : a ∈ auth) (hmsg : msg ≠ "")
    (hroom : ((run self Database.empty cs).messages a.value).length < 2 ^ 64 - 2) :
    (push_action self (run self Database.empty cs)
      ⟨auth, .submitmsg a pre msg hist⟩).result = .ok () := by
  have hkeys := run_keys self a cs Database.empty 0 (by simp [Database.empty])
  rw [Nat.zero_add] at hkeys
  have hlen : ((run self Database.empty cs).messages a.value).length
      = submitted self a Database.empty cs := by
    have := congrArg List.length hkeys
    simpa using this
  rw [hlen] at hroom
  generalize run self Database.empty cs = db at hkeys ⊢
  generalize submitted self a Database.empty cs = n at hkeys hroom
  have hk := available_primary_key_of_range message_info.primary_key _ n hkeys hroom
  have hnone : find message_info.primary_key n (db.messages a.value) = none := by
    rw [find_none_iff, hkeys]
    simp
  obtain ⟨rows1, _, _, _, heq⟩ := submitmsg_shape self auth a pre msg hist db hauth hmsg
  rw [push_action_result]
  simp only [dispatch, heq, hk, hnone]

/-- With no genesis row and her record 0 still open, `alice` submits again with
empty `pre_state_cid` and `full_convo_history_cid`: the call succeeds. -/
theorem submitmsg_succeeds_witness :
    alice ∈ [alice] ∧ "Qreq1" ≠ ""
    ∧ ((run sample_self Database.empty
        [⟨[alice], .submitmsg alice "Qpre0" "Qreq0" "Qhist0"⟩]).messages alice.value).length
      < 2 ^ 64 - 2
    ∧ (push_action sample_self
        (run sample_self Database.empty
          [⟨[alice], .submitmsg alice "Qpre0" "Qreq0" "Qhist0"⟩])
        ⟨[alice], .submitmsg alice "" "Qreq1" ""⟩).result = .ok () :=
  ⟨by decide, by decide, by decide,
   submitmsg_succeeds sample_self alice
     [⟨[alice], .submitmsg alice "Qpre0" "Qreq0" "Qhist0"⟩]
     [alice] "" "Qreq1" "" (by decide) (by decide) (by decide)⟩

/-! ## What later calls do to a record -/

/-- One call and a record `m` stored under `key` for account `a`: after the call
a record is still stored there, with the key, `pre_state_cid` and `msg_cid` of
`m`; it is `m` itself unless the call is a `finalizemsg` for `a` and `key`. -/
theorem push_action_record (self a : name) (key : Nat) (db : Database) (c : Call)
    (m : message_info)
    (hm : find message_info.primary_key key (db.messages a.value) = some m) :
    ∃ m2, find message_info.primary_key key ((push_action self db c).db.messages a.value)
        = some m2
      ∧ m2.key = m.key ∧ m2.pre_state_cid = m.pre_state_cid ∧ m2.msg_cid = m.msg_cid
      ∧ (c.finalizes a key = false → m2 = m) := by
  cases hres : (push_action self db c).result with
  | error e =>
    rw [push_action_db_of_error self db c e hres]
    exact ⟨m, hm, rfl, rfl, rfl, fun _ => rfl⟩
  | ok u =>
    have hd := push_action_ok self db c hres
    rw [hd]
    rw [hd] at hres
    obtain ⟨auth, act⟩ := c
    cases act with
    | initpersona cid =>
      obtain ⟨hauth, hf⟩ := initpersona_result_ok self auth cid db hres
      simp only [dispatch, initpersona_ok self auth cid db hauth hf]
      exact ⟨m, hm, rfl, rfl, rfl, fun _ => rfl⟩
    | submitmsg b pre msg hist =>
      obtain ⟨_, _, k, rows1, _, hnone, _, _, _, hdb⟩ :=
        submitmsg_result_ok self auth b pre msg hist db hres
      simp only [dispatch, hdb]
      by_cases hb : b = a
      · subst hb
        have hne : key ≠ k := by
          intro e
          rw [← e, hm] at hnone
          cases hnone
        rw [set_scope_same,
          find_store_other message_info.primary_key ⟨k, pre, msg, "", ""⟩ key hne]
        exact ⟨m, hm, rfl, rfl, rfl, fun _ => rfl⟩
      · rw [set_scope_other _ _ _ _ (name_value_ne (Ne.symm hb))]
        exact ⟨m, hm, rfl, rfl, rfl, fun _ => rfl⟩
    | finalizemsg b k post resp hist =>
      obtain ⟨hauth, ⟨m0, hm0⟩, ⟨cv, hcv⟩⟩ :=
        finalizemsg_result_ok self auth b k post resp hist db hres
      simp only [dispatch, finalizemsg_ok self auth b k post resp hist db hauth m0 hm0 cv hcv]
      by_cases hb : b = a
      · subst hb
        rw [set_scope_same]
        by_cases hk : k = key
        · subst hk
          rw [hm] at hm0
          cases hm0
          have hkey : m.key = k := find_some_pk message_info.primary_key k _ m hm
          refine ⟨⟨k, m.pre_state_cid, m.msg_cid, post, resp⟩,
            find_replace_self message_info.primary_key k
              ⟨k, m.pre_state_cid, m.msg_cid, post, resp⟩ rfl _ (by simp [hm]),
            hkey.symm, rfl, rfl, ?_⟩
          intro hfin
          simp [Call.finalizes] at hfin
        · rw [find_replace_other message_info.primary_key k key
            ⟨k, m0.pre_state_cid, m0.msg_cid, post, resp⟩ rfl (Ne.symm hk)]
          exact ⟨m, hm, rfl, rfl, rfl, fun _ => rfl⟩
      · rw [set_scope_other _ _ _ _ (name_value_ne (Ne.symm hb))]
        exact ⟨m, hm, rfl, rfl, rfl, fun _ => rfl⟩

/-- C13 (as stated, refuted): record 0 of `alice`, closed with
`(Qpost0, QrespA)`, is changed by a later operation: a second `finalizemsg`
for it succeeds and the record then reads `(Qpost9, QrespB)`. -/
theorem closed_record_is_overwritten :
    find message_info.primary_key 0
        ((run sample_self Database.empty
          [⟨[alice], .submitmsg alice "Qpre0" "Qreq0" "Qhist0"⟩,
           ⟨[sample_self], .finalizemsg alice 0 "Qpost0" "QrespA" "Qhist0b"⟩]).messages
            alice.value)
      = some ⟨0, "Qpre0", "Qreq0", "Qpost0", "QrespA"⟩
    ∧ (push_action sample_self
        (run sample_self Database.empty
          [⟨[alice], .submitmsg alice "Qpre0" "Qreq0" "Qhist0"⟩,
           ⟨[sample_self], .finalizemsg alice 0 "Qpost0" "QrespA" "Qhist0b"⟩])
        ⟨[sample_self], .finalizemsg alice 0 "Qpost9" "QrespB" "Qhist0c"⟩).result = .ok ()
    ∧ find message_info.primary_key 0
        ((push_action sample_self
          (run sample_self Database.empty
            [⟨[alice], .submitmsg alice "Qpre0" "Qreq0" "Qhist0"⟩,
             ⟨[sample_self], .finalizemsg alice 0 "Qpost0" "QrespA" "Qhist0b"⟩])
          ⟨[sample_self], .finalizemsg alice 0 "Qpost9" "QrespB" "Qhist0c"⟩).db.messages
            alice.value)
      = some ⟨0, "Qpre0", "Qreq0", "Qpost9", "QrespB"⟩
    ∧ find message_info.primary_key 0
        ((push_action sample_self
          (run sample_self Database.empty
            [⟨[alice], .submitmsg alice "Qpre0" "Qreq0" "Qhist0"⟩,
             ⟨[sample_self], .finalizemsg alice 0 "Qpost0" "QrespA" "Qhist0b"⟩])
          ⟨[sample_self], .finalizemsg alice 0 "Qpost9" "QrespB" "Qhist0c"⟩).db.messages
            alice.value)
      ≠ find message_info.primary_key 0
        ((run sample_self Database.empty
          [⟨[alice], .submitmsg alice "Qpre0" "Qreq0" "Qhist0"⟩,
           ⟨[sample_self], .finalizemsg alice 0 "Qpost0" "QrespA" "Qhist0b"⟩]).messages
            alice.value) :=
  ⟨rfl, rfl, rfl, by decide⟩

/-- C13 (amended): a record, closed or open, keeps its key, `pre_state_cid`
and `msg_cid` through every sequence of calls, and none of its fields changes
as long as no call of the sequence is a `finalizemsg` for the same account and
key; such a call is the only operation that changes `post_state_cid` and
`response`, and it does so on a closed record as well. -/
theorem record_changed_only_by_finalizemsg (self a : name) (key : Nat) (cs : List Call)
    (db : Database) (m : message_info)
    (hm : find message_info.primary_key key (db.messages a.value) = some m) :
    ∃ m2, find message_info.primary_key key ((run self db cs).messages a.value) = some m2
      ∧ m2.key = m.key ∧ m2.pre_state_cid = m.pre_state_cid ∧ m2.msg_cid = m.msg_cid
      ∧ ((∀ c ∈ cs, c.finalizes a key = false) → m2 = m)
      ∧ ∀ (auth : List name) (post resp hist : String),
          (push_action self (run self db cs)
            ⟨auth, .finalizemsg a key post resp hist⟩).result = .ok () →
          find message_info.primary_key key
            ((push_action self (run self db cs)
              ⟨auth, .finalizemsg a key post resp hist⟩).db.messages a.value)
          = some { m2 with post_state_cid := post, response := resp } := by
  have hover : ∀ (d : Database) (m0 : message_info),
      find message_info.primary_key key (d.messages a.value) = some m0 →
      ∀ (auth : List name) (post resp hist : String),
        (push_action self d ⟨auth, .finalizemsg a key post resp hist⟩).result = .ok () →
        find message_info.primary_key key
          ((push_action self d ⟨auth, .finalizemsg a key post resp hist⟩).db.messages a.value)
        = some { m0 with post_state_cid := post, response := resp } := by
    intro d m0 hm0 auth post resp hist hok
    have hd := push_action_ok self d _ hok
    rw [hd] at hok ⊢
    obtain ⟨hauth, _, ⟨cv, hcv⟩⟩ := finalizemsg_result_ok self auth a key post resp hist d hok
    have hkey : m0.key = key := find_some_pk message_info.primary_key key _ m0 hm0
    simp only [dispatch, finalizemsg_ok self auth a key post resp hist d hauth m0 hm0 cv hcv,
      set_scope_same]
    rw [find_replace_self message_info.primary_key key
      ⟨key, m0.pre_state_cid, m0.msg_cid, post, resp⟩ rfl _ (by simp [hm0]), ← hkey]
  induction cs generalizing db m with
  | nil => exact ⟨m, hm, rfl, rfl, rfl, fun _ => rfl, hover db m hm⟩
  | cons c cs ih =>
    obtain ⟨m1, hm1, hk1, hp1, hq1, hsame1⟩ := push_action_record self a key db c m hm
    obtain ⟨m2, hm2, hk2, hp2, hq2, hsame2, hover2⟩ := ih (push_action self db c).db m1 hm1
    refine ⟨m2, hm2, hk2.trans hk1, hp2.trans hp1, hq2.trans hq1, ?_, hover2⟩
    intro hall
    rw [hsame2 (fun x hx => hall x (List.mem_cons_of_mem _ hx)),
      hsame1 (hall c (List.mem_cons_self _ _))]

/-- Record 0 of `alice` is closed; a run with a failed `initpersona`, a further
`submitmsg` of `alice`, a `submitmsg` of `bob` and the closing of her record 1
leaves record 0 as it was. -/
theorem record_changed_only_by_finalizemsg_witness :
    find message_info.primary_key 0
        ((run sample_self Database.empty
          [⟨[alice], .submitmsg alice "Qpre0" "Qreq0" "Qhist0"⟩,
           ⟨[sample_self], .finalizemsg alice 0 "Qpost0" "QrespA" "Qhist0b"⟩]).messages
            alice.value)
      = some ⟨0, "Qpre0", "Qreq0", "Qpost0", "QrespA"⟩
    ∧ ∃ m2, find message_info.primary_key 0
        ((run sample_self
          (run sample_self Database.empty
            [⟨[alice], .submitmsg alice "Qpre0" "Qreq0" "Qhist0"⟩,
             ⟨[sample_self], .finalizemsg alice 0 "Qpost0" "QrespA" "Qhist0b"⟩])
          [⟨[alice], .initpersona "Qgenesis"⟩,
           ⟨[alice], .submitmsg alice "Qpost0" "Qreq1" "Qhist1"⟩,
           ⟨[bob], .submitmsg bob "Qpre0" "Qreq7" "Qhist7"⟩,
           ⟨[sample_self], .finalizemsg alice 1 "Qpost1" "QrespB" "Qhist1b"⟩]).messages
            alice.value) = some m2
      ∧ m2.key = 0 ∧ m2.pre_state_cid = "Qpre0" ∧ m2.msg_cid = "Qreq0"
      ∧ ((∀ c ∈ [(⟨[alice], .initpersona "Qgenesis"⟩ : Call),
           ⟨[alice], .submitmsg alice "Qpost0" "Qreq1" "Qhist1"⟩,
           ⟨[bob], .submitmsg bob "Qpre0" "Qreq7" "Qhist7"⟩,
           ⟨[sample_self], .finalizemsg alice 1 "Qpost1" "QrespB" "Qhist1b"⟩],
          c.finalizes alice 0 = false) →
        m2 = ⟨0, "Qpre0", "Qreq0", "Qpost0", "QrespA"⟩) :=
  ⟨rfl,
   Exists.imp (fun _ h => ⟨h.1, h.2.1, h.2.2.1, h.2.2.2.1, h.2.2.2.2.1⟩)
     (record_changed_only_by_finalizemsg sample_self alice 0
       [⟨[alice], .initpersona "Qgenesis"⟩,
        ⟨[alice], .submitmsg alice "Qpost0" "Qreq1" "Qhist1"⟩,
        ⟨[bob], .submitmsg bob "Qpre0" "Qreq7" "Qhist7"⟩,
        ⟨[sample_self], .finalizemsg alice 1 "Qpost1" "QrespB" "Qhist1b"⟩]
       (run sample_self Database.empty
         [⟨[alice], .submitmsg alice "Qpre0" "Qreq0" "Qhist0"⟩,
          ⟨[sample_self], .finalizemsg alice 0 "Qpost0" "QrespA" "Qhist0b"⟩])
       ⟨0, "Qpre0", "Qreq0", "Qpost0", "QrespA"⟩ rfl)⟩

/-! ## The genesis row -/

/-- One call either leaves the `personainfo` table as it is, or found no row
with id 1 and stored `(1, ref)` in the scope of the contract account. -/
theorem push_action_personainfo (self : name) (db : Database) (c : Call) :
    (push_action self db c).db.personainfo = db.personainfo
    ∨ (find persona_info.primary_key 1 (db.personainfo self.value) = none
      ∧ ∃ ref, (push_action self db c).db.personainfo
          = set_scope db.personainfo self.value
              (store persona_info.primary_key ⟨1, ref⟩ (db.personainfo self.value))) := by
  cases hres : (push_action self db c).result with
  | error e =>
    rw [push_action_db_of_error self db c e hres]
    exact Or.inl rfl
  | ok u =>
    have hd := push_action_ok self db c hres
    rw [hd]
    rw [hd] at hres
    obtain ⟨auth, act⟩ := c
    cases act with
    | initpersona cid =>
      obtain ⟨hauth, hf⟩ := initpersona_result_ok self auth cid db hres
      simp only [dispatch, initpersona_ok self auth cid db hauth hf]
      exact Or.inr ⟨hf, cid, rfl⟩
    | submitmsg b pre msg hist =>
      obtain ⟨_, _, k, rows1, _, _, _, _, _, hdb⟩ :=
        submitmsg_result_ok self auth b pre msg hist db hres
      simp only [dispatch, hdb]
      exact Or.inl trivial
    | finalizemsg b k post resp hist =>
      obtain ⟨hauth, ⟨m0, hm0⟩, ⟨cv, hcv⟩⟩ :=
        finalizemsg_result_ok self auth b k post resp hist db hres
      simp only [dispatch, finalizemsg_ok self auth b k post resp hist db hauth m0 hm0 cv hcv]
      exact Or.inl trivial

/-- Along a run from the empty database every `personainfo` scope is empty,
except that the scope of the contract account may hold the single row
`(1, ref)`. -/
theorem run_personainfo (self : name) (cs : List Call) :
    ∀ db : Database,
      (∀ scope, db.personainfo scope = []
        ∨ (scope = self.value ∧ ∃ ref, db.personainfo scope = [⟨1, ref⟩])) →
      ∀ scope, (run self db cs).personainfo scope = []
        ∨ (scope = self.value ∧ ∃ ref, (run self db cs).personainfo scope = [⟨1, ref⟩]) := by
  induction cs with
  | nil =>
    intro db h
    exact h
  | cons c cs ih =>
    intro db h
    apply ih
    intro scope
    rcases push_action_personainfo self db c with hsame | ⟨hnone, ref, hnew⟩
    · rw [hsame]
      exact h scope
    · rw [hnew]
      by_cases hs : scope = self.value
      · subst hs
        right
        refine ⟨rfl, ref, ?_⟩
        rw [set_scope_same]
        rcases h self.value with hnil | ⟨_, r0, hrow⟩
        · rw [hnil]
          rfl
        · rw [hrow] at hnone
          simp [find_cons, persona_info.primary_key] at hnone
      · rw [set_scope_other _ _ _ _ hs]
        exact h scope

/-- C14: once the `personainfo` table holds a genesis row `g` (id 1), every
sequence of calls, successful or failing, by any actors and for any accounts,
leaves the whole `personainfo` table as it is: the row with id 1 is still `g`.
And after any run from the empty database the table holds at most one row: no
row at all, or the single row `(1, ref)` in the scope of the contract
account. -/
theorem genesis_row_kept (self : name) (db : Database) (g : persona_info) (cs : List Call)
    (hg : find persona_info.primary_key 1 (db.personainfo self.value) = some g) :
    (run self db cs).personainfo = db.personainfo
    ∧ find persona_info.primary_key 1 ((run self db cs).personainfo self.value) = some g
    ∧ g.id = 1
    ∧ ∀ (cs0 : List Call) (scope : Nat),
        (run self Database.empty cs0).personainfo scope = []
        ∨ (scope = self.value
          ∧ ∃ ref, (run self Database.empty cs0).personainfo scope = [⟨1, ref⟩]) := by
  have hkeep : ∀ (l : List Call) (d : Database), d.personainfo = db.personainfo →
      (run self d l).personainfo = db.personainfo := by
    intro l
    induction l with
    | nil =>
      intro d hd
      exact hd
    | cons c l ih =>
      intro d hd
      apply ih
      rcases push_action_personainfo self d c with hsame | ⟨hnone, _, _⟩
      · rw [hsame, hd]
      · rw [hd, hg] at hnone
        cases hnone
  have hrun := hkeep cs db rfl
  refine ⟨hrun, by rw [hrun]; exact hg,
    find_some_pk persona_info.primary_key 1 _ g hg, ?_⟩
  intro cs0 scope
  exact run_personainfo self cs0 Database.empty (fun _ => Or.inl rfl) scope

/-- After `initpersona("Qgenesis")`, a second `initpersona`, a `submitmsg` of the
contract account for itself and a `finalizemsg` leave the genesis row as it
was. -/
theorem genesis_row_kept_witness :
    find persona_info.primary_key 1
        ((run sample_self Database.empty
          [⟨[sample_self], .initpersona "Qgenesis"⟩]).personainfo sample_self.value)
      = some ⟨1, "Qgenesis"⟩
    ∧ find persona_info.primary_key 1
        ((run sample_self
          (run sample_self Database.empty [⟨[sample_self], .initpersona "Qgenesis"⟩])
          [⟨[sample_self], .initpersona "Qother"⟩,
           ⟨[sample_self], .submitmsg sample_self "Qpre0" "Qreq0" "Qhist0"⟩,
           ⟨[sample_self], .finalizemsg sample_self 0 "Qpost0" "QrespA" "Qhist0b"⟩]).personainfo
            sample_self.value)
      = some ⟨1, "Qgenesis"⟩ :=
  ⟨rfl,
   (genesis_row_kept sample_self
     (run sample_self Database.empty [⟨[sample_self], .initpersona "Qgenesis"⟩])
     ⟨1, "Qgenesis"⟩
     [⟨[sample_self], .initpersona "Qother"⟩,
      ⟨[sample_self], .submitmsg sample_self "Qpre0" "Qreq0" "Qhist0"⟩,
      ⟨[sample_self], .finalizemsg sample_self 0 "Qpost0" "QrespA" "Qhist0b"⟩]
     rfl).2.1⟩

/-! ## Writes under different keys commute -/

theorem store_comm {α : Type} (pk : α → Nat) (x y : α) (hxy : pk x ≠ pk y) (rows : List α) :
    store pk x (store pk y rows) = store pk y (store pk x rows) := by
  induction rows with
  | nil =>
    simp only [store]
    by_cases h : pk x < pk y
    · have h2 : ¬ pk y < pk x := by omega
      simp [h, h2, store]
    · have h2 : pk y < pk x := by omega
      simp [h, h2, store]
  | cons r rows ih =>
    by_cases hx : pk x < pk r
    · by_cases hy : pk y < pk r
      · by_cases h : pk x < pk y
        · have h2 : ¬ pk y < pk x := by omega
          simp [store, hx, hy, h, h2]
        · have h2 : pk y < pk x := by omega
          simp [store, hx, hy, h, h2]
      · have h : pk x < pk y := by omega
        have h2 : ¬ pk y < pk x := by omega
        simp [store, hx, hy, h2]
    · by_cases hy : pk y < pk r
      · have h : pk y < pk x := by omega
        have h2 : ¬ pk x < pk y := by omega
        simp [store, hx, hy, h2]
      · simp [store, hx, hy, ih]

theorem store_replace_comm {α : Type} (pk : α → Nat) (x : α) (k : Nat) (row : α)
    (hrow : pk row = k) (hx : pk x ≠ k) (rows : List α) :
    replace pk k row (store pk x rows) = store pk x (replace pk k row rows) := by
  subst hrow
  induction rows with
  | nil => simp [store, replace, hx]
  | cons r rows ih =>
    by_cases hr : pk r = pk row
    · by_cases hlt : pk x < pk row
      · simp [store, replace, hr, hlt, hx]
      · simp [store, replace, hr, hlt]
    · by_cases hlt : pk x < pk r
      · simp [store, replace, hlt, hr, hx]
      · simp [store, replace, hlt, hr, ih]

theorem replace_comm {α : Type} (pk : α → Nat) (k1 k2 : Nat) (r1 r2 : α)
    (h1 : pk r1 = k1) (h2 : pk r2 = k2) (hk : k1 ≠ k2) (rows : List α) :
    replace pk k1 r1 (replace pk k2 r2 rows) = replace pk k2 r2 (replace pk k1 r1 rows) := by
  subst h1
  subst h2
  induction rows with
  | nil => rfl
  | cons r rows ih =>
    by_cases ha : pk r = pk r1
    · simp [replace, ha, hk]
    · by_cases hb : pk r = pk r2
      · simp [replace, hb, Ne.symm hk]
      · simp [replace, ha, hb, ih]

theorem find_upsert_other (a : name) (h : String) (k : Nat) (hk : k ≠ a.value)
    (rows : List convo_info) :
    find convo_info.primary_key k (upsert a h rows) = find convo_info.primary_key k rows := by
  unfold upsert
  cases hf : find convo_info.primary_key a.value rows with
  | none => exact find_store_other convo_info.primary_key ⟨a, h⟩ k hk rows
  | some obj => exact find_replace_other convo_info.primary_key a.value k ⟨a, h⟩ rfl hk rows

theorem upsert_comm (a b : name) (ha hb : String) (hab : a.value ≠ b.value)
    (rows : List convo_info) :
    upsert a ha (upsert b hb rows) = upsert b hb (upsert a ha rows) := by
  have fa : find convo_info.primary_key a.value (upsert b hb rows)
      = find convo_info.primary_key a.value rows := find_upsert_other b hb a.value hab rows
  have fb : find convo_info.primary_key b.value (upsert a ha rows)
      = find convo_info.primary_key b.value rows :=
    find_upsert_other a ha b.value (Ne.symm hab) rows
  have ka : convo_info.primary_key ⟨a, ha⟩ = a.value := rfl
  have kb : convo_info.primary_key ⟨b, hb⟩ = b.value := rfl
  cases hfa : find convo_info.primary_key a.value rows with
  | none =>
    cases hfb : find convo_info.primary_key b.value rows with
    | none =>
      rw [hfa] at fa
      rw [hfb] at fb
      unfold upsert at fa fb ⊢
      simp only [hfa, hfb] at fa fb ⊢
      simp only [fa, fb]
      exact store_comm convo_info.primary_key ⟨a, ha⟩ ⟨b, hb⟩ hab rows
    | some ob =>
      rw [hfa] at fa
      rw [hfb] at fb
      unfold upsert at fa fb ⊢
      simp only [hfa, hfb] at fa fb ⊢
      simp only [fa, fb]
      exact (store_replace_comm convo_info.primary_key ⟨a, ha⟩ b.value ⟨b, hb⟩ rfl hab
        rows).symm
  | some oa =>
    cases hfb : find convo_info.primary_key b.value rows with
    | none =>
      rw [hfa] at fa
      rw [hfb] at fb
      unfold upsert at fa fb ⊢
      simp only [hfa, hfb] at fa fb ⊢
      simp only [fa, fb]
      exact store_replace_comm convo_info.primary_key ⟨b, hb⟩ a.value ⟨a, ha⟩ rfl
        (Ne.symm hab) rows
    | some ob =>
      rw [hfa] at fa
      rw [hfb] at fb
      unfold upsert at fa fb ⊢
      simp only [hfa, hfb] at fa fb ⊢
      simp only [fa, fb]
      exact replace_comm convo_info.primary_key a.value b.value ⟨a, ha⟩ ⟨b, hb⟩ rfl rfl hab
        rows

/-! ## A call on one account reads and writes the data of that account only -/

theorem submitmsg_written (a : name) (hist : String) (rows : List convo_info) :
    (match find convo_info.primary_key a.value rows with
      | none => emplace convo_info.primary_key ⟨a, hist⟩ rows
      | some obj => sysio.modify convo_info.primary_key obj
          (fun row => { row with full_convo_history_cid := hist }) rows)
      = .ok (upsert a hist rows) := by
  unfold upsert
  cases hf : find convo_info.primary_key a.value rows with
  | none =>
    have h1 : find convo_info.primary_key
        (convo_info.primary_key ⟨a, hist⟩) rows = none := hf
    simp [emplace, h1]
  | some obj =>
    have hobj : obj.account_name.value = a.value :=
      find_some_pk convo_info.primary_key a.value rows obj hf
    have hname : obj.account_name = a := by
      cases obj with
      | mk an h0 =>
        cases an
        cases a
        simp at hobj
        simp [hobj]
    simp [modify_convo, hname]

theorem push_submitmsg_eq (self : name) (auth : List name) (a : name)
    (pre msg hist : String) (db : Database) (hauth : a ∈ auth) (hmsg : msg ≠ "") :
    push_action self db ⟨auth, .submitmsg a pre msg hist⟩ =
      (match available_primary_key message_info.primary_key (db.messages a.value) with
        | .error e => ⟨.error e, db⟩
        | .ok key =>
          match find message_info.primary_key key (db.messages a.value) with
          | some _ => ⟨.error .uniqueness_violation, db⟩
          | none => ⟨.ok (), ⟨set_scope db.convos self.value (upsert a hist (db.convos self.value)),
              set_scope db.messages a.value
                (store message_info.primary_key ⟨key, pre, msg, "", ""⟩ (db.messages a.value)),
              db.personainfo⟩⟩) := by
  have hbody : dispatch self db ⟨auth, .submitmsg a pre msg hist⟩ =
      (match available_primary_key message_info.primary_key (db.messages a.value) with
        | .error e => ⟨.error e, ⟨set_scope db.convos self.value
            (upsert a hist (db.convos self.value)), db.messages, db.personainfo⟩⟩
        | .ok key =>
          match find message_info.primary_key key (db.messages a.value) with
          | some _ => ⟨.error .uniqueness_violation,
              ⟨set_scope db.convos self.value (upsert a hist (db.convos self.value)),
                db.messages, db.personainfo⟩⟩
          | none => ⟨.ok (), ⟨set_scope db.convos self.value (upsert a hist (db.convos self.value)),
              set_scope db.messages a.value
                (store message_info.primary_key ⟨key, pre, msg, "", ""⟩ (db.messages a.value)),
              db.personainfo⟩⟩) := by
    simp only [dispatch]
    unfold persona.submitmsg
    simp only [require_auth_mem hauth, check_not_isEmpty msg _ hmsg, submitmsg_written]
    cases hk : available_primary_key message_info.primary_key (db.messages a.value) with
    | error e => rfl
    | ok key =>
      simp only [emplace, message_info.primary_key]
      cases hf : find message_info.primary_key key (db.messages a.value) with
      | none =>
        have hf2 : find (fun row : message_info => row.key) key (db.messages a.value) = none := hf
        simp only [hf2]
      | some m =>
        have hf2 : find (fun row : message_info => row.key) key (db.messages a.value)
            = some m := hf
        simp only [hf2]
  cases hk : available_primary_key message_info.primary_key (db.messages a.value) with
  | error e =>
    rw [hk] at hbody
    exact push_action_error self db _ e (by rw [hbody])
  | ok key =>
    rw [hk] at hbody
    cases hf : find message_info.primary_key key (db.messages a.value) with
    | some m =>
      simp only [hf] at hbody ⊢
      exact push_action_error self db _ _ (by rw [hbody])
    | none =>
      simp only [hf] at hbody ⊢
      rw [push_action_ok self db _ (by rw [push_action_result, hbody]), hbody]

theorem push_finalizemsg_eq (self : name) (auth : List name) (a : name) (key : Nat)
    (post resp hist : String) (db : Database) (hadmin : self ∈ auth) :
    push_action self db ⟨auth, .finalizemsg a key post resp hist⟩ =
      (match find message_info.primary_key key (db.messages a.value) with
        | none => ⟨.error (.check_failure "Message not found"), db⟩
        | some m =>
          if (find convo_info.primary_key a.value (db.convos self.value)).isSome then
            ⟨.ok (), ⟨set_scope db.convos self.value (upsert a hist (db.convos self.value)),
              set_scope db.messages a.value
                (replace message_info.primary_key key
                  ⟨key, m.pre_state_cid, m.msg_cid, post, resp⟩ (db.messages a.value)),
              db.personainfo⟩⟩
          else ⟨.error (.check_failure "Conversation not found"), db⟩) := by
  cases hm : find message_info.primary_key key (db.messages a.value) with
  | none =>
    exact push_action_error self db _ _
      (by simp only [dispatch, finalizemsg_no_message self auth a key post resp hist db hadmin hm])
  | some m =>
    cases hc : find convo_info.primary_key a.value (db.convos self.value) with
    | none =>
      simp only [Option.isSome_none, Bool.false_eq_true, if_false]
      exact push_action_error self db _ _
        (by simp only [dispatch,
          finalizemsg_no_convo self auth a key post resp hist db hadmin m hm hc])
    | some c =>
      have hb := finalizemsg_ok self auth a key post resp hist db hadmin m hm c hc
      have hu : upsert a hist (db.convos self.value)
          = replace convo_info.primary_key a.value ⟨a, hist⟩ (db.convos self.value) := by
        unfold upsert
        simp only [hc]
      simp only [Option.isSome_some, if_true, hu]
      rw [push_action_ok self db _ (by rw [push_action_result]; simp only [dispatch, hb])]
      simp only [dispatch, hb]

theorem set_scope_twice {α : Type} (table : Nat → List α) (scope : Nat) (r1 r2 : List α) :
    set_scope (set_scope table scope r1) scope r2 = set_scope table scope r2 := by
  funext s
  by_cases h : s = scope <;> simp [set_scope, h]

theorem set_scope_comm {α : Type} (table : Nat → List α) (s1 s2 : Nat) (r1 r2 : List α)
    (h : s1 ≠ s2) :
    set_scope (set_scope table s1 r1) s2 r2 = set_scope (set_scope table s2 r2) s1 r1 := by
  funext s
  by_cases h1 : s = s1
  · have h2 : s ≠ s2 := fun e => h (h1.symm.trans e)
    simp [set_scope, h1, h]
  · by_cases h2 : s = s2
    · simp [set_scope, h2, Ne.symm h]
    · simp [set_scope, h1, h2]

/-- A `submitmsg` or `finalizemsg` for account `a` is decided by the message
scope of `a` and by whether `a` has a conversation row; when it succeeds it
rewrites that scope and writes the conversation row of `a`, and nothing
else. -/
theorem account_call_local (self a : name) (c : Call) (hc : c.on_account a = true) :
    ∃ (R : List message_info → Bool → Except Failure (List message_info)) (h : String),
      ∀ db : Database,
        push_action self db c =
          (match R (db.messages a.value)
              (find convo_info.primary_key a.value (db.convos self.value)).isSome with
            | .ok rows1 =>
              ⟨.ok (), ⟨set_scope db.convos self.value (upsert a h (db.convos self.value)),
                set_scope db.messages a.value rows1, db.personainfo⟩⟩
            | .error e => ⟨.error e, db⟩) := by
  obtain ⟨auth, act⟩ := c
  cases act with
  | initpersona cid => simp [Call.on_account] at hc
  | submitmsg b pre msg hist =>
    have hb : b = a := by simpa [Call.on_account] using hc
    subst hb
    by_cases hauth : b ∈ auth
    · by_cases hmsg : msg = ""
      · subst hmsg
        refine ⟨fun _ _ => .error (.check_failure "Message CID cannot be empty"), hist, ?_⟩
        intro db
        exact push_action_error self db _ _
          (by simp only [dispatch, submitmsg_empty self auth b pre hist db hauth])
      · refine ⟨fun rows _ =>
            match available_primary_key message_info.primary_key rows with
            | .error e => .error e
            | .ok key =>
              match find message_info.primary_key key rows with
              | some _ => .error .uniqueness_violation
              | none => .ok (store message_info.primary_key ⟨key, pre, msg, "", ""⟩ rows),
          hist, ?_⟩
        intro db
        rw [push_submitmsg_eq self auth b pre msg hist db hauth hmsg]
        beta_reduce
        cases hk : available_primary_key message_info.primary_key (db.messages b.value) with
        | error e => rfl
        | ok key =>
          cases hf : find message_info.primary_key key (db.messages b.value) with
          | none => simp only [hf]
          | some m => simp only [hf]
    · refine ⟨fun _ _ => .error (.missing_auth b), hist, ?_⟩
      intro db
      exact push_action_error self db _ _
        (by simp only [dispatch, submitmsg_unauth self auth b pre msg hist db hauth])
  | finalizemsg b key post resp hist =>
    have hb : b = a := by simpa [Call.on_account] using hc
    subst hb
    by_cases hadmin : self ∈ auth
    · refine ⟨fun rows ptr =>
          match find message_info.primary_key key rows with
          | none => .error (.check_failure "Message not found")
          | some m =>
            if ptr then
              .ok (replace message_info.primary_key key
                ⟨key, m.pre_state_cid, m.msg_cid, post, resp⟩ rows)
            else .error (.check_failure "Conversation not found"),
        hist, ?_⟩
      intro db
      rw [push_finalizemsg_eq self auth b key post resp hist db hadmin]
      beta_reduce
      cases hm : find message_info.primary_key key (db.messages b.value) with
      | none => rfl
      | some m =>
        cases hp : (find convo_info.primary_key b.value (db.convos self.value)).isSome with
        | true => simp
        | false => simp
    · refine ⟨fun _ _ => .error (.missing_auth self), hist, ?_⟩
      intro db
      exact push_action_error self db _ _
        (by simp only [dispatch, finalizemsg_unauth self auth b key post resp hist db hadmin])

/-- C15: in any database, for two calls `c1` and `c2`, each a `submitmsg` or
a `finalizemsg` with any arguments and any authorising actors, `c1` for account
`a` and `c2` for account `b` with `a ≠ b`: each call has the same result
whether it runs first or second, and the database after `c1` then `c2` equals
the database after `c2` then `c1`. -/
theorem distinct_accounts_commute (self a b : name) (db : Database) (c1 c2 : Call)
    (hab : a ≠ b) (h1 : c1.on_account a = true) (h2 : c2.on_account b = true) :
    (push_action self (push_action self db c2).db c1).result = (push_action self db c1).result
    ∧ (push_action self (push_action self db c1).db c2).result
        = (push_action self db c2).result
    ∧ (push_action self (push_action self db c1).db c2).db
        = (push_action self (push_action self db c2).db c1).db := by
  have hv : a.value ≠ b.value := name_value_ne hab
  obtain ⟨R1, x1, e1⟩ := account_call_local self a c1 h1
  obtain ⟨R2, x2, e2⟩ := account_call_local self b c2 h2
  have loc1 : ∀ d : Database,
      (push_action self d c1).db.messages b.value = d.messages b.value
      ∧ find convo_info.primary_key b.value ((push_action self d c1).db.convos self.value)
          = find convo_info.primary_key b.value (d.convos self.value) := by
    intro d
    rw [e1 d]
    cases R1 (d.messages a.value)
        (find convo_info.primary_key a.value (d.convos self.value)).isSome with
    | error e => exact ⟨rfl, rfl⟩
    | ok rows1 =>
      exact ⟨set_scope_other _ _ _ _ (Ne.symm hv),
        by simp only [set_scope_same]; exact find_upsert_other a x1 b.value (Ne.symm hv) _⟩
  have loc2 : ∀ d : Database,
      (push_action self d c2).db.messages a.value = d.messages a.value
      ∧ find convo_info.primary_key a.value ((push_action self d c2).db.convos self.value)
          = find convo_info.primary_key a.value (d.convos self.value) := by
    intro d
    rw [e2 d]
    cases R2 (d.messages b.value)
        (find convo_info.primary_key b.value (d.convos self.value)).isSome with
    | error e => exact ⟨rfl, rfl⟩
    | ok rows2 =>
      exact ⟨set_scope_other _ _ _ _ hv,
        by simp only [set_scope_same]; exact find_upsert_other b x2 a.value hv _⟩
  have s1 := e1 (push_action self db c2).db
  rw [(loc2 db).1, (loc2 db).2] at s1
  have s2 := e2 (push_action self db c1).db
  rw [(loc1 db).1, (loc1 db).2] at s2
  rw [s1, s2]
  have f1 := e1 db
  have f2 := e2 db
  cases hR1 : R1 (db.messages a.value)
      (find convo_info.primary_key a.value (db.convos self.value)).isSome with
  | error er1 =>
    rw [hR1] at f1
    cases hR2 : R2 (db.messages b.value)
        (find convo_info.primary_key b.value (db.convos self.value)).isSome with
    | error er2 =>
      rw [hR2] at f2
      simp only [f1, f2]
      exact ⟨trivial, trivial, trivial⟩
    | ok rows2 =>
      rw [hR2] at f2
      simp only [f1, f2]
      exact ⟨trivial, trivial, trivial⟩
  | ok rows1 =>
    rw [hR1] at f1
    cases hR2 : R2 (db.messages b.value)
        (find convo_info.primary_key b.value (db.convos self.value)).isSome with
    | error er2 =>
      rw [hR2] at f2
      simp only [f1, f2]
      exact ⟨trivial, trivial, trivial⟩
    | ok rows2 =>
      rw [hR2] at f2
      simp only [f1, f2, set_scope_same, set_scope_twice]
      refine ⟨trivial, trivial, ?_⟩
      rw [upsert_comm a b x1 x2 hv, set_scope_comm db.messages a.value b.value rows1 rows2 hv]

/-- On the empty database a `submitmsg` of `alice` and a `submitmsg` of `bob`
give the same results and the same database in either order. -/
theorem distinct_accounts_commute_witness :
    alice ≠ bob
    ∧ (⟨[alice], .submitmsg alice "Qpre0" "Qreq0" "Qhist0"⟩ : Call).on_account alice = true
    ∧ (⟨[bob], .submitmsg bob "Qpre0" "Qreq7" "Qhist7"⟩ : Call).on_account bob = true
    ∧ (push_action sample_self
        (push_action sample_self Database.empty
          ⟨[alice], .submitmsg alice "Qpre0" "Qreq0" "Qhist0"⟩).db
        ⟨[bob], .submitmsg bob "Qpre0" "Qreq7" "Qhist7"⟩).db
      = (push_action sample_self
        (push_action sample_self Database.empty
          ⟨[bob], .submitmsg bob "Qpre0" "Qreq7" "Qhist7"⟩).db
        ⟨[alice], .submitmsg alice "Qpre0" "Qreq0" "Qhist0"⟩).db :=
  ⟨by decide, rfl, rfl,
   (distinct_accounts_commute sample_self alice bob Database.empty
     ⟨[alice], .submitmsg alice "Qpre0" "Qreq0" "Qhist0"⟩
     ⟨[bob], .submitmsg bob "Qpre0" "Qreq7" "Qhist7"⟩ (by decide) rfl rfl).2.2⟩

/-! ## Reading the key of a new record back -/

/-- A record stored under `key` for account `a` is still stored under `key`
after any sequence of calls. -/
theorem run_record_found (self a : name) (key : Nat) (cs : List Call) :
    ∀ (db : Database) (m : message_info),
      find message_info.primary_key key (db.messages a.value) = some m →
      ∃ m2, find message_info.primary_key key ((run self db cs).messages a.value)
        = some m2 := by
  induction cs with
  | nil =>
    intro db m hm
    exact ⟨m, hm⟩
  | cons c cs ih =>
    intro db m hm
    obtain ⟨m1, hm1, _⟩ := push_action_record self a key db c m hm
    exact ih (push_action self db c).db m1 hm1

/-- C11 (amended): a successful `submitmsg` gives its caller no value; the key
of the record it created is read from the table. After any run from the empty
database, a successful `submitmsg` for `a` leaves the new record as the last
row of the scope of `a`, its key is the number of earlier successful
`submitmsg` calls for `a`, and a later `finalizemsg` with that key, authorised
by the contract account, succeeds: right after the `submitmsg` and after any
further sequence of calls. -/
theorem submitmsg_key_read_from_table (self a : name) (cs : List Call) (auth : List name)
    (pre msg hist : String)
    (hok : (push_action self (run self Database.empty cs)
      ⟨auth, .submitmsg a pre msg hist⟩).result = .ok ()) :
    ((push_action self (run self Database.empty cs)
        ⟨auth, .submitmsg a pre msg hist⟩).db.messages a.value).getLast?
      = some ⟨submitted self a Database.empty cs, pre, msg, "", ""⟩
    ∧ ∀ (cs2 : List Call) (auth2 : List name) (post resp hist2 : String), self ∈ auth2 →
        (push_action self
          (run self
            (push_action self (run self Database.empty cs)
              ⟨auth, .submitmsg a pre msg hist⟩).db
            cs2)
          ⟨auth2, .finalizemsg a (submitted self a Database.empty cs) post resp hist2⟩).result
        = .ok () := by
  have hkeys := run_keys self a cs Database.empty 0 (by simp [Database.empty])
  rw [Nat.zero_add] at hkeys
  obtain ⟨happ, hfind, _⟩ :=
    submitmsg_append self a (run self Database.empty cs) _ auth pre msg hist hkeys hok
  refine ⟨by rw [happ, List.getLast?_concat], ?_⟩
  intro cs2 auth2 post resp hist2 hadmin
  have hinv := push_action_pointer_iff self (run self Database.empty cs)
    ⟨auth, .submitmsg a pre msg hist⟩
    (run_pointer_iff self cs Database.empty (empty_pointer_iff self))
  obtain ⟨m2, hm2⟩ := run_record_found self a _ cs2 _ _ hfind
  have hne : (run self
      (push_action self (run self Database.empty cs)
        ⟨auth, .submitmsg a pre msg hist⟩).db cs2).messages a.value ≠ [] := by
    intro hnil
    rw [hnil, find_nil] at hm2
    cases hm2
  have hptr := (run_pointer_iff self cs2 _ hinv a).mpr hne
  cases hc : find convo_info.primary_key a.value
      ((run self
        (push_action self (run self Database.empty cs)
          ⟨auth, .submitmsg a pre msg hist⟩).db cs2).convos self.value) with
  | none => exact absurd hc hptr
  | some c => exact finalizemsg_push_ok self _ auth2 a _ post resp hist2 hadmin m2 hm2 c hc

/-- After `alice` submitted once, her second `submitmsg` leaves the record with
key 1 as the last row. `finalizemsg(alice, 1, ...)` succeeds right after it,
and also after `bob` submitted, `alice` submitted a third time, an
`initpersona` ran and record 1 was already closed once. -/
theorem submitmsg_key_read_from_table_witness :
    (push_action sample_self
        (run sample_self Database.empty
          [⟨[alice], .submitmsg alice "Qpre0" "Qreq0" "Qhist0"⟩])
        ⟨[alice], .submitmsg alice "Qpost0" "Qreq1" "Qhist1"⟩).result = .ok ()
    ∧ ((push_action sample_self
        (run sample_self Database.empty
          [⟨[alice], .submitmsg alice "Qpre0" "Qreq0" "Qhist0"⟩])
        ⟨[alice], .submitmsg alice "Qpost0" "Qreq1" "Qhist1"⟩).db.messages
          alice.value).getLast?
      = some ⟨1, "Qpost0", "Qreq1", "", ""⟩
    ∧ (push_action sample_self
        (push_action sample_self
          (run sample_self Database.empty
            [⟨[alice], .submitmsg alice "Qpre0" "Qreq0" "Qhist0"⟩])
          ⟨[alice], .submitmsg alice "Qpost0" "Qreq1" "Qhist1"⟩).db
        ⟨[sample_self], .finalizemsg alice 1 "Qpost1" "QrespB" "Qhist1b"⟩).result = .ok ()
    ∧ (push_action sample_self
        (run sample_self
          (push_action sample_self
            (run sample_self Database.empty
              [⟨[alice], .submitmsg alice "Qpre0" "Qreq0" "Qhist0"⟩])
            ⟨[alice], .submitmsg alice "Qpost0" "Qreq1" "Qhist1"⟩).db
          [⟨[bob], .submitmsg bob "Qpre0" "Qreq7" "Qhist7"⟩,
           ⟨[alice], .submitmsg alice "Qpost1" "Qreq2" "Qhist2"⟩,
           ⟨[sample_self], .initpersona "Qgenesis"⟩,
           ⟨[sample_self], .finalizemsg alice 1 "Qpost1" "QrespB" "Qhist1b"⟩])
        ⟨[sample_self], .finalizemsg alice 1 "Qpost9" "QrespC" "Qhist1c"⟩).result = .ok () :=
  ⟨rfl,
   (submitmsg_key_read_from_table sample_self alice
     [⟨[alice], .submitmsg alice "Qpre0" "Qreq0" "Qhist0"⟩]
     [alice] "Qpost0" "Qreq1" "Qhist1" rfl).1,
   (submitmsg_key_read_from_table sample_self alice
     [⟨[alice], .submitmsg alice "Qpre0" "Qreq0" "Qhist0"⟩]
     [alice] "Qpost0" "Qreq1" "Qhist1" rfl).2 [] [sample_self] "Qpost1" "QrespB" "Qhist1b"
     (by decide),
   (submitmsg_key_read_from_table sample_self alice
     [⟨[alice], .submitmsg alice "Qpre0" "Qreq0" "Qhist0"⟩]
     [alice] "Qpost0" "Qreq1" "Qhist1" rfl).2
     [⟨[bob], .submitmsg bob "Qpre0" "Qreq7" "Qhist7"⟩,
      ⟨[alice], .submitmsg alice "Qpost1" "Qreq2" "Qhist2"⟩,
      ⟨[sample_self], .initpersona "Qgenesis"⟩,
      ⟨[sample_self], .finalizemsg alice 1 "Qpost1" "QrespB" "Qhist1b"⟩]
     [sample_self] "Qpost9" "QrespC" "Qhist1c" (by decide)⟩

end Mutagent
